import Mathlib

/-!
Shallow embedding of `pipelinewise-tap-mongodb` (the CDC sync engine in
`tap_mongodb/sync_strategies/change_streams.py`, the value transformer and
schema merger in `tap_mongodb/sync_strategies/common.py`, and the
stream/state orchestrator in `tap_mongodb/__init__.py`), together with
theorems settling the specification claims about them.

Python dictionaries are modelled as insertion-ordered association lists,
Python lists as Lean lists, and Python sets as `Finset`.  BSON / driver
values are modelled by the inductive `MongoValue`; machine integers are
`Int`/`Nat`.  Fallible code returns `Except`.
-/

/-- A Python `datetime.datetime` payload (naive: no tzinfo is modelled;
the local-timezone localization performed by `tzlocal`/`pytz` is a
parameter, see `Tz`). -/
structure DT where
  year : Nat
  month : Nat
  day : Nat
  hour : Nat
  minute : Nat
  second : Nat
  microsecond : Nat
deriving Repr, DecidableEq

/-- Left-pad the decimal representation of `n` with zeros to width `w`
(Python `'{:0Nd}'.format`). -/
def padZ (w : Nat) (n : Nat) : String :=
  let s := toString n
  String.mk (List.replicate (w - s.length) '0') ++ s

/-- `singer.utils.strftime`: formats a UTC datetime with the fixed format
`%Y-%m-%dT%H:%M:%S.%fZ` (microsecond precision, literal `Z`). -/
def utilsStrftime (d : DT) : String :=
  padZ 4 d.year ++ "-" ++ padZ 2 d.month ++ "-" ++ padZ 2 d.day ++ "T" ++
    padZ 2 d.hour ++ ":" ++ padZ 2 d.minute ++ ":" ++ padZ 2 d.second ++ "." ++
    padZ 6 d.microsecond ++ "Z"

/-- Civil date from days since the Unix epoch (for nonnegative epochs),
used to model `bson.timestamp.Timestamp.as_datetime`. -/
def civilFromDays (days : Nat) : Nat × Nat × Nat :=
  let z := days + 719468
  let era := z / 146097
  let doe := z % 146097
  let yoe := (doe - doe / 1460 + doe / 36524 - doe / 146096) / 365
  let y := yoe + era * 400
  let doy := doe - (365 * yoe + yoe / 4 - yoe / 100)
  let mp := (5 * doy + 2) / 153
  let d := doy - (153 * mp + 2) / 5 + 1
  let m := if mp < 10 then mp + 3 else mp - 9
  (if m ≤ 2 then y + 1 else y, m, d)

/-- `bson.timestamp.Timestamp.as_datetime`: the UTC datetime of the
timestamp's `time` component (seconds since the epoch; `inc` is dropped,
microseconds are zero). -/
def epochToDT (t : Nat) : DT :=
  let days := t / 86400
  let secs := t % 86400
  let (y, m, d) := civilFromDays days
  ⟨y, m, d, secs / 3600, secs % 3600 / 60, secs % 60, 0⟩

/-- Python `datetime.isoformat()` of an aware UTC datetime with zero
microseconds, as produced for the `_sdc_deleted_at` tombstone field from
`change['clusterTime'].as_datetime().isoformat()`. -/
def isoformatEpoch (t : Nat) : String :=
  let d := epochToDT t
  padZ 4 d.year ++ "-" ++ padZ 2 d.month ++ "-" ++ padZ 2 d.day ++ "T" ++
    padZ 2 d.hour ++ ":" ++ padZ 2 d.minute ++ ":" ++ padZ 2 d.second ++ "+00:00"

mutual

/-- A BSON / Python value as seen in a MongoDB document row.  String
payloads of identifier-like values (`ObjectId`, `UUID`, …) model their
`str()` form, the payload of `bytesV` models the base64 encoding of the
raw bytes, and the payloads of the two decimal kinds model their decimal
surface form.  `pyDecimalV` is a Python `decimal.Decimal` (the result of
`Decimal128.to_decimal()`); it never occurs in raw rows. -/
inductive MongoValue where
  | intV (n : Int)
  | strV (s : String)
  | boolV (b : Bool)
  | nullV
  | floatV (r : String)
  | decimal128V (r : String)
  | pyDecimalV (r : String)
  | int64V (n : Int)
  | datetimeV (d : DT)
  | timestampV (time : Nat) (inc : Nat)
  | uuidV (s : String)
  | objectIdV (s : String)
  | bytesV (b64 : String)
  | regexV (pattern : String) (flags : Int)
  | codeV (code : String) (scope : Option String)
  | dbrefV (refId : String) (collection : String) (database : Option String)
  | minKeyV
  | maxKeyV
  | objV (fields : MFields)
  | arrV (elems : MElems)
deriving Repr, DecidableEq

/-- The fields of a Python `dict` document, in insertion order. -/
inductive MFields where
  | nil
  | cons (name : String) (v : MongoValue) (rest : MFields)
deriving Repr, DecidableEq

/-- The elements of a Python `list` value. -/
inductive MElems where
  | nil
  | cons (v : MongoValue) (rest : MElems)
deriving Repr, DecidableEq

end

/-- Look up a field of a document (first occurrence), like `row['_id']`
lookups / `row.get`. -/
def MFields.lookup (k : String) : MFields → Option MongoValue
  | .nil => none
  | .cons n v rest => if n = k then some v else MFields.lookup k rest

/-- The `_id` of a document row. -/
def docId (row : MFields) : Option MongoValue :=
  row.lookup "_id"

/-!
## Schema merger (`common.py` 242-446)

A field's `anyOf` union is a list of `SchemaEntry`.  The entries that the
merger ever builds or inspects are: the empty catch-all `{}`, the
date-time string entry, the numeric entry with or without its
`multipleOf` precision marker, the object entry (with its own properties
mapping each field to an `anyOf` list) and the array entry (whose
`items.anyOf` is a nested entry list).  The top-level schema
`{"type": "object", "properties": …}` is represented by its properties
association list alone.
-/

inductive SchemaEntry where
  | catchAll
  | dateTimeE
  | numberE (multipleOf : Bool)
  | objectE (props : List (String × List SchemaEntry))
  | arrayE (items : List SchemaEntry)
deriving Repr

/-- `entry.get('format') == 'date-time'`. -/
def isDateTimeEntry : SchemaEntry → Bool
  | .dateTimeE => true
  | _ => false

/-- `entry.get('type') == 'number' and not entry.get('multipleOf')`. -/
def isNumberNoMult : SchemaEntry → Bool
  | .numberE m => !m
  | _ => false

/-- `entry.get('type') == 'number' and entry.get('multipleOf')`. -/
def isNumberWithMult : SchemaEntry → Bool
  | .numberE m => m
  | _ => false

/-- `entry.get('type') == 'object'`. -/
def isObjectEntry : SchemaEntry → Bool
  | .objectE _ => true
  | _ => false

/-- `entry.get('type') == 'array'`. -/
def isArrayEntry : SchemaEntry → Bool
  | .arrayE _ => true
  | _ => false

/-- Python `list.insert(i, x)` for a nonnegative index (clamps to the end
when `i` exceeds the length). -/
def pyInsert (i : Nat) (x : SchemaEntry) : List SchemaEntry → List SchemaEntry
  | l =>
    match i, l with
    | 0, l => x :: l
    | _ + 1, [] => [x]
    | i + 1, a :: rest => a :: pyInsert i x rest

/-- Python `list.insert(-1, x)`: insert just before the last element
(at the front of an empty or singleton-free case per CPython semantics). -/
def pyInsertBeforeLast (x : SchemaEntry) : List SchemaEntry → List SchemaEntry
  | [] => [x]
  | [a] => [x, a]
  | a :: rest => a :: pyInsertBeforeLast x rest

/-- The in-place scan of `_add_to_any_of_for_decimal_types`: set the
`multipleOf` marker on the first numeric entry lacking it, if any. -/
def setFirstMultipleOf : List SchemaEntry → Option (List SchemaEntry)
  | [] => none
  | e :: rest =>
    if isNumberNoMult e then some (SchemaEntry.numberE true :: rest)
    else (setFirstMultipleOf rest).map (e :: ·)

/-- The in-place scan of `_add_to_any_of_for_float_types`: pop the
`multipleOf` marker from the first numeric entry carrying it, if any. -/
def popFirstMultipleOf : List SchemaEntry → Option (List SchemaEntry)
  | [] => none
  | e :: rest =>
    if isNumberWithMult e then some (SchemaEntry.numberE false :: rest)
    else (popFirstMultipleOf rest).map (e :: ·)

/-- `_add_to_any_of_for_datetime_types` (common.py 242): insert a
date-time entry at index 0 unless one is already present. -/
def add_to_any_of_for_datetime_types (schema : List SchemaEntry) :
    List SchemaEntry × Bool :=
  if schema.any isDateTimeEntry then (schema, false)
  else (SchemaEntry.dateTimeE :: schema, true)

/-- `_add_to_any_of_for_decimal_types` (common.py 264): mark the first
unmarked numeric entry in place; otherwise insert a marked numeric entry
at index 1 when a date-time entry is present, else at index 0, unless a
marked numeric entry already exists. -/
def add_to_any_of_for_decimal_types (schema : List SchemaEntry) :
    List SchemaEntry × Bool :=
  match setFirstMultipleOf schema with
  | some s => (s, true)
  | none =>
    let has_date := schema.any isDateTimeEntry
    let has_decimal := schema.any isNumberWithMult
    if !has_decimal then
      (pyInsert (if has_date then 1 else 0) (SchemaEntry.numberE true) schema, true)
    else (schema, false)

/-- `_add_to_any_of_for_float_types` (common.py 297): the mirror of the
decimal case, removing the marker in place or inserting an unmarked
numeric entry. -/
def add_to_any_of_for_float_types (schema : List SchemaEntry) :
    List SchemaEntry × Bool :=
  match popFirstMultipleOf schema with
  | some s => (s, true)
  | none =>
    let has_date := schema.any isDateTimeEntry
    let has_float := schema.any isNumberNoMult
    if !has_float then
      (pyInsert (if has_date then 1 else 0) (SchemaEntry.numberE false) schema, true)
    else (schema, false)

/-- The properties of the last object entry of the list, if any (the
Python loop keeps overwriting `object_schema`, so the last wins). -/
def findLastObjectProps (schema : List SchemaEntry) :
    Option (List (String × List SchemaEntry)) :=
  match schema.reverse.find? isObjectEntry with
  | some (.objectE p) => some p
  | _ => none

/-- The items of the last array entry of the list, if any. -/
def findLastArrayItems (schema : List SchemaEntry) :
    Option (List SchemaEntry) :=
  match schema.reverse.find? isArrayEntry with
  | some (.arrayE it) => some it
  | _ => none

/-- Replace the first entry satisfying `p` with `x`. -/
def replaceFirstWith (p : SchemaEntry → Bool) (x : SchemaEntry) :
    List SchemaEntry → List SchemaEntry
  | [] => []
  | a :: rest => if p a then x :: rest else a :: replaceFirstWith p x rest

/-- Replace the last entry satisfying `p` with `x` (models the in-place
mutation through the reference obtained by the Python scan loop). -/
def replaceLastWith (p : SchemaEntry → Bool) (x : SchemaEntry)
    (l : List SchemaEntry) : List SchemaEntry :=
  (replaceFirstWith p x l.reverse).reverse

/-- `value` is one of the types that trigger schema growth in
`update_schema_from_row` (common.py 430-436). -/
def isSchemaInteresting : MongoValue → Bool
  | .datetimeV _ => true
  | .timestampV _ _ => true
  | .decimal128V _ => true
  | .floatV _ => true
  | .objV _ => true
  | .arrV _ => true
  | _ => false

/-- First-occurrence lookup in a properties association list
(`schema['properties'].get(field)`). -/
def propsGet (props : List (String × List SchemaEntry)) (k : String) :
    Option (List SchemaEntry) :=
  match props with
  | [] => none
  | (n, s) :: rest => if n = k then some s else propsGet rest k

/-- Python dict assignment `props[field] = slot`: overwrite the existing
key in place, or append the new key in insertion order. -/
def propsSet (props : List (String × List SchemaEntry)) (k : String)
    (slot : List SchemaEntry) : List (String × List SchemaEntry) :=
  match props with
  | [] => [(k, slot)]
  | (n, s) :: rest =>
    if n = k then (n, slot) :: rest else (n, s) :: propsSet rest k slot

/-- The tail of `_add_to_any_of_for_dict_type` (common.py 329) once the
fields have been merged into `newProps`: the object entry found by the
scan was mutated through its reference (so it is replaced in place
whether or not the merge reported a change), while a newly created one
is inserted just before the catch-all only when the merge changed it. -/
def dict_type_finish (schema : List SchemaEntry)
    (found : Option (List (String × List SchemaEntry)))
    (newProps : List (String × List SchemaEntry)) (changed : Bool) :
    List SchemaEntry × Bool :=
  match found with
  | some _ => (replaceLastWith isObjectEntry (SchemaEntry.objectE newProps) schema, changed)
  | none =>
    if changed then (pyInsertBeforeLast (SchemaEntry.objectE newProps) schema, true)
    else (schema, false)

/-- The tail of `_add_to_any_of_for_list_type` (common.py 359) once every
element has been merged into `newItems`: the array entry found by the
scan was mutated through its reference (replaced in place regardless of
the flag), while a newly created one is inserted just before the
catch-all only when some element changed the items schema. -/
def list_type_finish (schema : List SchemaEntry)
    (found : Option (List SchemaEntry))
    (newItems : List SchemaEntry) (changed : Bool) :
    List SchemaEntry × Bool :=
  match found with
  | some _ => (replaceLastWith isArrayEntry (SchemaEntry.arrayE newItems) schema, changed)
  | none =>
    if changed then (pyInsertBeforeLast (SchemaEntry.arrayE newItems) schema, true)
    else (schema, false)

mutual

/-- `add_to_any_of` (common.py 391): dispatch on the runtime type of the
merged value.  The object case is `_add_to_any_of_for_dict_type`
(common.py 329) and the array case is `_add_to_any_of_for_list_type`
(common.py 359), with their recursive merges inlined here. -/
def add_to_any_of (schema : List SchemaEntry) (value : MongoValue) :
    List SchemaEntry × Bool :=
  match value with
  | .datetimeV _ => add_to_any_of_for_datetime_types schema
  | .timestampV _ _ => add_to_any_of_for_datetime_types schema
  | .decimal128V _ => add_to_any_of_for_decimal_types schema
  | .floatV _ => add_to_any_of_for_float_types schema
  | .objV fields =>
    let found := findLastObjectProps schema
    let (newProps, changed) := update_schema_from_row_aux (found.getD []) fields
    dict_type_finish schema found newProps changed
  | .arrV elems =>
    let found := findLastArrayItems schema
    let (newItems, changed) := add_list_entries (found.getD [SchemaEntry.catchAll]) elems
    list_type_finish schema found newItems changed
  | _ => (schema, false)

/-- The `for list_entry in value` loop of `_add_to_any_of_for_list_type`:
`list_entry_changed = add_to_any_of(anyof_schema, list_entry) or
list_entry_changed` (the call is made on every iteration). -/
def add_list_entries (items : List SchemaEntry) (elems : MElems) :
    List SchemaEntry × Bool :=
  match elems with
  | .nil => (items, false)
  | .cons e rest =>
    let (it1, c1) := add_to_any_of items e
    let (it2, c2) := add_list_entries it1 rest
    (it2, c1 || c2)

/-- The field loop of `update_schema_from_row` (common.py 418): for each
field whose value is interesting, create the missing `anyOf` slot as
`[{}]`, merge the value into the slot, and accumulate the changed flag. -/
def update_schema_from_row_aux (props : List (String × List SchemaEntry))
    (row : MFields) : List (String × List SchemaEntry) × Bool :=
  match row with
  | .nil => (props, false)
  | .cons field value rest =>
    if isSchemaInteresting value then
      let slot := (propsGet props field).getD [SchemaEntry.catchAll]
      let (slot2, c1) := add_to_any_of slot value
      let (p2, c2) := update_schema_from_row_aux (propsSet props field slot2) rest
      (p2, c1 || c2)
    else
      update_schema_from_row_aux props rest

end

/-- `update_schema_from_row` (common.py 418): the top-level schema is
`{"type": "object", "properties": …}` and is represented by its
properties list. -/
def update_schema_from_row (props : List (String × List SchemaEntry))
    (row : MFields) : List (String × List SchemaEntry) × Bool :=
  update_schema_from_row_aux props row

/-!
## Value transformer (`common.py` 141-239)

The local timezone (`tzlocal.get_localzone()`) and the
`localize`/`astimezone(pytz.UTC)` pair are external library behaviour;
they are modelled by the parameter `Tz`, whose single operation either
returns the UTC equivalent of a naive datetime or fails with the text of
the raised exception.
-/

/-- The composite `tzlocal.get_localzone().localize(value)` followed by
`.astimezone(pytz.UTC)`: an external-library parameter of the embedding. -/
structure Tz where
  localizeToUtc : DT → Except String DT

/-- One element of the `path` argument threaded through the transformer
(a field name or a list index). -/
inductive PathElem where
  | fieldP (s : String)
  | idxP (n : Nat)
deriving Repr, DecidableEq

/-- `str` of a path element, for `".".join(map(str, path))`. -/
def pathElemStr : PathElem → String
  | .fieldP s => s
  | .idxP n => toString n

/-- `".".join(map(str, path))`. -/
def pathJoin (path : List PathElem) : String :=
  String.intercalate "." (path.map pathElemStr)

/-- Python `str(datetime)`: `YYYY-MM-DD HH:MM:SS[.ffffff]`. -/
def pyDatetimeStr (d : DT) : String :=
  padZ 4 d.year ++ "-" ++ padZ 2 d.month ++ "-" ++ padZ 2 d.day ++ " " ++
    padZ 2 d.hour ++ ":" ++ padZ 2 d.minute ++ ":" ++ padZ 2 d.second ++
    (if d.microsecond = 0 then "" else "." ++ padZ 6 d.microsecond)

/-- The exceptions that can escape the transformer:
`MongoInvalidDateTimeException` (caught by `row_to_singer_record` and
wrapped), the wrapped `SyncException`, and any exception raised outside a
`try` block (such as the unguarded localization in `transform_value`). -/
inductive TErr where
  | mongoInvalidDateTime (msg : String)
  | syncException (msg : String)
  | uncaught (msg : String)
deriving Repr, DecidableEq

/-- `safe_transform_datetime` (common.py 141): localize to the local
timezone and convert to UTC; if that raises `"year is out of range"` on
a year-zero value, fall back to formatting the raw value as a
fixed-width UTC-looking string; any other failure becomes a
`MongoInvalidDateTimeException` naming the path and value. -/
def safe_transform_datetime (tz : Tz) (value : DT) (path : List PathElem) :
    Except TErr String :=
  match tz.localizeToUtc value with
  | .ok utc => .ok (utilsStrftime utc)
  | .error ex =>
    if ex = "year is out of range" ∧ value.year = 0 then
      .ok (padZ 4 value.year ++ "-" ++ padZ 2 value.month ++ "-" ++ padZ 2 value.day ++
        "T" ++ padZ 2 value.hour ++ ":" ++ padZ 2 value.minute ++ ":" ++
        padZ 2 value.second ++ "." ++ padZ 6 value.microsecond ++ "Z")
    else
      .error (.mongoInvalidDateTime
        ("Found invalid datetime at [" ++ pathJoin path ++ "]: " ++ pyDatetimeStr value))

mutual

/-- `transform_value` (common.py 174).  Notes tied to the source:
the conversion table is a dict literal whose keys `bson_datetime.datetime`
and `datetime.datetime` are the *same* class (`bson` re-exports the
standard module), so the later plain `utils.strftime` lambda wins and
`safe_transform_datetime` is never dispatched to; moreover every
datetime value is first localized to the local timezone and converted to
UTC by the unguarded statements at lines 202-205, whose exception
propagates uncaught.  Values of types absent from the table (including
`MinKey`/`MaxKey`) are returned unchanged. -/
def transform_value (tz : Tz) (value : MongoValue) (path : List PathElem) :
    Except TErr MongoValue :=
  match value with
  | .datetimeV d =>
    match tz.localizeToUtc d with
    | .error e => .error (.uncaught e)
    | .ok utc => .ok (.strV (utilsStrftime utc))
  | .arrV elems =>
    match transform_elems tz elems path 0 with
    | .error e => .error e
    | .ok l => .ok (.arrV l)
  | .objV fields =>
    match transform_fields tz fields path with
    | .error e => .error e
    | .ok f => .ok (.objV f)
  | .uuidV s => .ok (.strV s)
  | .objectIdV s => .ok (.strV s)
  | .timestampV t _ => .ok (.strV (utilsStrftime (epochToDT t)))
  | .int64V n => .ok (.intV n)
  | .bytesV b => .ok (.strV b)
  | .decimal128V r => .ok (.pyDecimalV r)
  | .regexV p f => .ok (.objV (.cons "pattern" (.strV p) (.cons "flags" (.intV f) .nil)))
  | .codeV c scope =>
    match scope with
    | some s => .ok (.objV (.cons "value" (.strV c) (.cons "scope" (.strV s) .nil)))
    | none => .ok (.strV c)
  | .dbrefV i coll db =>
    .ok (.objV (.cons "id" (.strV i) (.cons "collection" (.strV coll)
      (.cons "database" (match db with | some s => .strV s | none => .nullV) .nil))))
  | v => .ok v

/-- The list branch of `transform_value`: transform every element at
path `path + [index]`. -/
def transform_elems (tz : Tz) (elems : MElems) (path : List PathElem)
    (i : Nat) : Except TErr MElems :=
  match elems with
  | .nil => .ok .nil
  | .cons v rest =>
    match transform_value tz v (path ++ [.idxP i]) with
    | .error e => .error e
    | .ok v2 =>
      match transform_elems tz rest path (i + 1) with
      | .error e => .error e
      | .ok r2 => .ok (.cons v2 r2)

/-- The dict branch of `transform_value`: transform every field at path
`path + [key]` (no Min/MaxKey filtering happens here). -/
def transform_fields (tz : Tz) (fields : MFields) (path : List PathElem) :
    Except TErr MFields :=
  match fields with
  | .nil => .ok .nil
  | .cons k v rest =>
    match transform_value tz v (path ++ [.fieldP k]) with
    | .error e => .error e
    | .ok v2 =>
      match transform_fields tz rest path with
      | .error e => .error e
      | .ok r2 => .ok (.cons k v2 r2)

end

/-- `type(v) in [bson.min_key.MinKey, bson.max_key.MaxKey]`. -/
def isMinMaxKey : MongoValue → Bool
  | .minKeyV => true
  | .maxKeyV => true
  | _ => false

/-- The dict comprehension of `row_to_singer_record` (common.py 229):
top-level fields whose value is a Min/MaxKey sentinel are skipped, every
other field is transformed at path `[k]`. -/
def rowToPersist (tz : Tz) (row : MFields) : Except TErr MFields :=
  match row with
  | .nil => .ok .nil
  | .cons k v rest =>
    if isMinMaxKey v then rowToPersist tz rest
    else
      match transform_value tz v [.fieldP k] with
      | .error e => .error e
      | .ok v2 =>
        match rowToPersist tz rest with
        | .error e => .error e
        | .ok r2 => .ok (.cons k v2 r2)

/-- A catalog stream with the metadata fields the core reads
(`tap_stream_id`, destination `stream` name, and the top-level metadata
entries `database-name`, `selected`, `replication-method`,
`replication-key`). -/
structure CatalogStream where
  tapStreamId : String
  stream : String
  databaseName : Option String
  selected : Option Bool
  replicationMethod : Option String
  replicationKey : Option String
deriving Repr, DecidableEq

/-- `INCLUDE_SCHEMAS_IN_DESTINATION_STREAM_NAME` (common.py 20). -/
def INCLUDE_SCHEMAS_IN_DESTINATION_STREAM_NAME : Bool := false

/-- `calculate_destination_stream_name` (common.py 46). -/
def calculate_destination_stream_name (stream : CatalogStream) : String :=
  if INCLUDE_SCHEMAS_IN_DESTINATION_STREAM_NAME then
    (stream.databaseName.getD "None") ++ "_" ++ stream.stream
  else stream.stream

/-- A singer `RecordMessage`. -/
structure RecordMessage where
  stream : String
  record : MFields
  version : Int
  timeExtracted : DT
deriving Repr, DecidableEq

/-- `row_to_singer_record` (common.py 213): build the record from the
transformed row (dropping top-level Min/MaxKey fields), wrapping a
`MongoInvalidDateTimeException` into a stream- and document-identified
`SyncException`; any other exception propagates unchanged. -/
def row_to_singer_record (tz : Tz) (stream : CatalogStream) (row : MFields)
    (version : Int) (timeExtracted : DT) : Except TErr RecordMessage :=
  match rowToPersist tz row with
  | .ok fields =>
    .ok { stream := calculate_destination_stream_name stream,
          record := fields, version := version, timeExtracted := timeExtracted }
  | .error (.mongoInvalidDateTime m) =>
    .error (.syncException
      ("Error syncing collection " ++ stream.tapStreamId ++ ", object ID " ++
        (match docId row with | some v => reprStr v | none => "") ++ " - " ++ m))
  | .error e => .error e

/-!
## Singer state model (the `singer` library's bookmark helpers)

`state` is a Python dict `{'bookmarks': {stream_id: {key: value}},
'currently_syncing': id?}`.  The helpers below model
`singer.write_bookmark`, `singer.get_bookmark`, `singer.reset_stream`
and `singer.get_currently_syncing` (external library, semantics as
documented and exercised by this repository's tests): dict assignment
overwrites an existing key in place or appends in insertion order, and a
missing key reads as Python `None`.
-/

/-- A value stored under a bookmark key (`None`, a string such as a
resume token or method name, or an integer such as a version). -/
inductive BVal where
  | noneB
  | strB (s : String)
  | intB (n : Int)
deriving Repr, DecidableEq

/-- First-occurrence lookup in an association list. -/
def alGet {α : Type} (l : List (String × α)) (k : String) : Option α :=
  match l with
  | [] => none
  | (n, v) :: rest => if n = k then some v else alGet rest k

/-- Python dict assignment: overwrite in place or append. -/
def alSet {α : Type} (l : List (String × α)) (k : String) (v : α) :
    List (String × α) :=
  match l with
  | [] => [(k, v)]
  | (n, w) :: rest => if n = k then (n, v) :: rest else (n, w) :: alSet rest k v

/-- The tap's state: per-stream bookmarks plus the optional
`currently_syncing` marker. -/
structure TapState where
  bookmarks : List (String × List (String × BVal))
  currentlySyncing : Option String
deriving Repr, DecidableEq

/-- `singer.get_bookmark(state, tap_stream_id, key)` with default `None`. -/
def get_bookmark (state : TapState) (tapStreamId key : String) : BVal :=
  match alGet state.bookmarks tapStreamId with
  | none => .noneB
  | some bm => (alGet bm key).getD .noneB

/-- `singer.write_bookmark(state, tap_stream_id, key, val)`: ensures the
bookmark path exists and sets the key. -/
def write_bookmark (state : TapState) (tapStreamId key : String) (v : BVal) :
    TapState :=
  let bm := alSet ((alGet state.bookmarks tapStreamId).getD []) key v
  { state with bookmarks := alSet state.bookmarks tapStreamId bm }

/-- `singer.reset_stream(state, tap_stream_id)`: empties the stream's
bookmark dict. -/
def reset_stream (state : TapState) (tapStreamId : String) : TapState :=
  { state with bookmarks := alSet state.bookmarks tapStreamId [] }

/-- `singer.get_currently_syncing(state)`. -/
def get_currently_syncing (state : TapState) : Option String :=
  state.currentlySyncing

/-- A Python `None`-able string as a bookmark value. -/
def optStrB : Option String → BVal
  | some s => .strB s
  | none => .noneB

/-!
## Stream/state orchestrator (`__init__.py` 245-376)
-/

/-- `is_stream_selected` (`__init__.py` 245): the `selected` metadata
entry must be `True` (`is True`, so a missing or non-`True` value is not
selected). -/
def is_stream_selected (stream : CatalogStream) : Bool :=
  stream.selected = some true

/-- Truthiness of `state.get('bookmarks', {}).get(tap_stream_id)`:
a missing bookmark or an empty dict is falsy. -/
def hasTruthyBookmark (state : TapState) (tapStreamId : String) : Bool :=
  match alGet state.bookmarks tapStreamId with
  | none => false
  | some bm => !bm.isEmpty

/-- The intermediate `ordered_streams` of `get_streams_to_sync`
(`__init__.py` 260): selected streams without a truthy bookmark first
(in catalog order), then those with one. -/
def ordered_streams (streams : List CatalogStream) (state : TapState) :
    List CatalogStream :=
  let selectedStreams := streams.filter is_stream_selected
  selectedStreams.filter (fun s => !hasTruthyBookmark state s.tapStreamId) ++
    selectedStreams.filter (fun s => hasTruthyBookmark state s.tapStreamId)

/-- The truthy `currently_syncing` marker (`if currently_syncing:`; an
empty string is falsy). -/
def truthyCurrentlySyncing (state : TapState) : Option String :=
  match get_currently_syncing state with
  | some c => if c = "" then none else some c
  | none => none

/-- `get_streams_to_sync` (`__init__.py` 260): filter to selected
streams, order bookmark-less streams first, and move the streams
matching a truthy `currently_syncing` marker to the front. -/
def get_streams_to_sync (streams : List CatalogStream) (state : TapState) :
    List CatalogStream :=
  let ordered := ordered_streams streams state
  match truthyCurrentlySyncing state with
  | some c =>
    ordered.filter (fun s => s.tapStreamId = c) ++
      ordered.filter (fun s => s.tapStreamId ≠ c)
  | none => ordered

/-- `clear_state_on_replication_change` (`__init__.py` 343): reset the
stream's bookmark when the configured replication method differs from
the recorded one; when the configured method is `INCREMENTAL`,
additionally reset when the configured replication key differs from the
recorded one and record the configured key; always record the
configured method. -/
def clear_state_on_replication_change (stream : CatalogStream)
    (state : TapState) : TapState :=
  let tapStreamId := stream.tapStreamId
  let currentMethod := stream.replicationMethod
  let lastMethod := get_bookmark state tapStreamId "last_replication_method"
  let state1 :=
    if lastMethod ≠ .noneB ∧ optStrB currentMethod ≠ lastMethod then
      reset_stream state tapStreamId
    else state
  let state2 :=
    if currentMethod = some "INCREMENTAL" then
      let lastKey := get_bookmark state1 tapStreamId "replication_key_name"
      let currentKey := stream.replicationKey
      let s :=
        if lastKey ≠ .noneB ∧ optStrB currentKey ≠ lastKey then
          reset_stream state1 tapStreamId
        else state1
      write_bookmark s tapStreamId "replication_key_name" (optStrB currentKey)
    else state1
  write_bookmark state2 tapStreamId "last_replication_method" (optStrB currentMethod)

/-!
## CDC sync engine (`change_streams.py`)

The change feed is modelled as the list of loop iterations the cursor
serves while alive: each iteration carries the `resume_token` read at its
start and the result of `try_next()` (`none` models the idle timeout
after `MAX_AWAIT_TIME_MS`).  `datetime.datetime.now(tz=utc)` is the
parameter `now`; the backing collection is a list of documents.
-/

/-- The property list of the running schema
(`{"type": "object", "properties": {}}` starts empty). -/
abbrev SchemaProps := List (String × List SchemaEntry)

/-- `MAX_UPDATE_BUFFER_LENGTH` (change_streams.py 16). -/
def MAX_UPDATE_BUFFER_LENGTH : Nat := 500

/-- `UPDATE_BOOKMARK_PERIOD` (common.py 21). -/
def UPDATE_BOOKMARK_PERIOD : Nat := 1000

/-- The singer messages written by the engine. -/
inductive SingerMessage where
  | schemaM (stream : String)
  | recordM (msg : RecordMessage)
  | stateM (state : TapState)
  | activateVersionM (stream : String) (version : Int)
deriving Repr, DecidableEq

/-- `update_bookmarks` (change_streams.py 41): re-set the stream's
`'token'` bookmark to the changeStream resume token. -/
def update_bookmarks (state : TapState) (tapStreamId : String)
    (token : String) : TapState :=
  write_bookmark state tapStreamId "token" (.strB token)

/-- Modelled from the spec: `change_streams.write_schema` (line 32) calls
`common.row_to_schema`, which is absent from `src/` (only this caller
exists there); per the spec's Schema Merger contract
(`merge(schemaNode, documentFields) -> changed`, §4.2) it is the schema
merge, i.e. `update_schema_from_row`. -/
def row_to_schema (schema : SchemaProps) (row : MFields) : SchemaProps × Bool :=
  update_schema_from_row schema row

/-- `change_streams.write_schema` (change_streams.py 30): merge the row
into the schema and emit a schema message if it changed. -/
def cs_write_schema (schema : SchemaProps) (row : MFields)
    (stream : CatalogStream) : SchemaProps × List SingerMessage :=
  let (schema1, changed) := row_to_schema schema row
  (schema1, if changed then [.schemaM (calculate_destination_stream_name stream)] else [])

/-- `get_buffer_rows_from_db` (change_streams.py 56): one batched query
`{'_id': {'$in': list(update_buffer)}}` against the collection,
optionally narrowed by the stream projection (modelled as a document
transformation).  The documents whose `_id` is in the buffer are
returned in collection order. -/
def get_buffer_rows_from_db (collection : List MFields)
    (update_buffer : Finset MongoValue)
    (stream_projection : Option (MFields → MFields)) : List MFields :=
  (collection.filter fun d =>
      match docId d with
      | some i => i ∈ update_buffer
      | none => false).map
    (fun d => match stream_projection with | some p => p d | none => d)

/-- The body of `flush_buffer`'s row loop (change_streams.py 207-218):
write the (possibly updated) schema, emit one record per fetched row,
and count the rows saved. -/
def flushRows (tz : Tz) (now : DT) (stream : CatalogStream) (version : Int)
    (rows : List MFields) (schema : SchemaProps) :
    Except TErr (List SingerMessage × Nat × SchemaProps) :=
  match rows with
  | [] => .ok ([], 0, schema)
  | r :: rest =>
    let (schema1, schemaMsgs) := cs_write_schema schema r stream
    match row_to_singer_record tz stream r version now with
    | .error e => .error e
    | .ok rcd =>
      match flushRows tz now stream version rest schema1 with
      | .error e => .error e
      | .ok (msgs, n, schema2) =>
        .ok (schemaMsgs ++ [.recordM rcd] ++ msgs, n + 1, schema2)

/-- `flush_buffer` (change_streams.py 189): fetch the buffered documents
in one batch, emit a record for each one found, then clear the buffer
(`buffer.clear()`), returning the number of rows saved. -/
def flush_buffer (tz : Tz) (now : DT) (buffer : Finset MongoValue)
    (stream : CatalogStream) (collection : List MFields)
    (stream_projection : Option (MFields → MFields)) (version : Int)
    (schema : SchemaProps) :
    Except TErr (List SingerMessage × Nat × Finset MongoValue × SchemaProps) :=
  match flushRows tz now stream version
      (get_buffer_rows_from_db collection buffer stream_projection) schema with
  | .error e => .error e
  | .ok (msgs, n, schema2) => .ok (msgs, n, ∅, schema2)

/-- A change event delivered by the feed (the `$match` pipeline restricts
the feed to these three operation types).  Updates and deletes carry only
the document key; deletes also carry the cluster time (epoch seconds). -/
inductive ChangeEvent where
  | insert (fullDocument : MFields)
  | update (id : MongoValue)
  | delete (id : MongoValue) (clusterTime : Nat)
deriving Repr, DecidableEq

/-- One iteration of the `while cursor.alive` loop: the resume token read
at the top and the optional event returned by `try_next()`. -/
structure FeedIter where
  token : String
  change : Option ChangeEvent
deriving Repr, DecidableEq

/-- The engine's in-memory state during one stream's sync. -/
structure EngineState where
  tapState : TapState
  rowsSaved : Nat
  buffer : Finset MongoValue
  schema : SchemaProps
  messages : List SingerMessage

/-- The event dispatch of `sync_collection` (change_streams.py 130-163). -/
def processEvent (tz : Tz) (now : DT) (stream : CatalogStream)
    (version : Int) (st : EngineState) (ev : ChangeEvent) :
    Except TErr EngineState :=
  match ev with
  | .insert doc =>
    let (schema1, schemaMsgs) := cs_write_schema st.schema doc stream
    match row_to_singer_record tz stream doc version now with
    | .error e => .error e
    | .ok rcd =>
      .ok { st with schema := schema1,
                    messages := st.messages ++ schemaMsgs ++ [.recordM rcd],
                    rowsSaved := st.rowsSaved + 1 }
  | .update i => .ok { st with buffer := insert i st.buffer }
  | .delete i clusterTime =>
    let buffer1 := st.buffer.erase i
    let doc := MFields.cons "_sdc_deleted_at" (.strV (isoformatEpoch clusterTime))
      (MFields.cons "_id" i .nil)
    let (schema1, schemaMsgs) := cs_write_schema st.schema doc stream
    match row_to_singer_record tz stream doc version now with
    | .error e => .error e
    | .ok rcd =>
      .ok { st with buffer := buffer1, schema := schema1,
                    messages := st.messages ++ schemaMsgs ++ [.recordM rcd],
                    rowsSaved := st.rowsSaved + 1 }

/-- One iteration of the `while cursor.alive` loop (change_streams.py
112-178).  On the no-event (idle timeout) path the token read on this
iteration is persisted, a state message is written and the loop breaks
(`false`); otherwise the event is dispatched, the bookmark is updated
with this iteration's token regardless of event kind, and the buffer is
flushed when it has reached its cap or the emitted-row counter is a
multiple of the checkpoint period (writing a state message when the
post-flush counter lands on the period boundary). -/
def processIter (tz : Tz) (now : DT) (collection : List MFields)
    (stream_projection : Option (MFields → MFields)) (stream : CatalogStream)
    (version : Int) (st : EngineState) (it : FeedIter) :
    Except TErr (EngineState × Bool) :=
  match it.change with
  | none =>
    let ts := update_bookmarks st.tapState stream.tapStreamId it.token
    .ok ({ st with tapState := ts, messages := st.messages ++ [.stateM ts] }, false)
  | some ev =>
    match processEvent tz now stream version st ev with
    | .error e => .error e
    | .ok st1 =>
      let st2 := { st1 with tapState := update_bookmarks st1.tapState stream.tapStreamId it.token }
      if MAX_UPDATE_BUFFER_LENGTH ≤ st2.buffer.card ∨
          st2.rowsSaved % UPDATE_BOOKMARK_PERIOD = 0 then
        match flush_buffer tz now st2.buffer stream collection stream_projection version st2.schema with
        | .error e => .error e
        | .ok (msgs, n, buf, schema1) =>
          let st3 := { st2 with buffer := buf, schema := schema1,
                                messages := st2.messages ++ msgs,
                                rowsSaved := st2.rowsSaved + n }
          if st3.rowsSaved % UPDATE_BOOKMARK_PERIOD = 0 then
            .ok ({ st3 with messages := st3.messages ++ [.stateM st3.tapState] }, true)
          else .ok (st3, true)
      else .ok (st2, true)

/-- The `while cursor.alive` loop over the feed's iterations: stops early
when an iteration breaks (idle timeout), otherwise runs until the cursor
dies. -/
def runLoop (tz : Tz) (now : DT) (collection : List MFields)
    (stream_projection : Option (MFields → MFields)) (stream : CatalogStream)
    (version : Int) (st : EngineState) :
    List FeedIter → Except TErr EngineState
  | [] => .ok st
  | it :: rest =>
    match processIter tz now collection stream_projection stream version st it with
    | .error e => .error e
    | .ok (st1, cont) =>
      if cont then runLoop tz now collection stream_projection stream version st1 rest
      else .ok st1

/-- The iterations the loop actually executes: every iteration up to and
including the first no-event one (which breaks the loop). -/
def executedIters : List FeedIter → List FeedIter
  | [] => []
  | it :: rest =>
    match it.change with
    | none => [it]
    | some _ => it :: executedIters rest

/-- `get_stream_version` (common.py 61): the bookmarked version, or a
fresh epoch-milliseconds version when none is recorded. -/
def get_stream_version (tapStreamId : String) (state : TapState)
    (nowMs : Int) : Int :=
  match get_bookmark state tapStreamId "version" with
  | .intB n => n
  | _ => nowMs

/-- `sync_collection` (change_streams.py 75): activate the stream
version, run the change-stream loop from the saved resume token, and
flush the buffer unconditionally after the loop exits. -/
def sync_collection (tz : Tz) (now : DT) (nowMs : Int)
    (collection : List MFields)
    (stream_projection : Option (MFields → MFields)) (stream : CatalogStream)
    (state : TapState) (iters : List FeedIter) : Except TErr EngineState :=
  let version := get_stream_version stream.tapStreamId state nowMs
  let st0 : EngineState :=
    { tapState := state, rowsSaved := 0, buffer := ∅, schema := [],
      messages := [.activateVersionM (calculate_destination_stream_name stream) version] }
  match runLoop tz now collection stream_projection stream version st0 iters with
  | .error e => .error e
  | .ok stF =>
    match flush_buffer tz now stF.buffer stream collection stream_projection version stF.schema with
    | .error e => .error e
    | .ok (msgs, n, buf, schema1) =>
      .ok { stF with buffer := buf, schema := schema1,
                     messages := stF.messages ++ msgs,
                     rowsSaved := stF.rowsSaved + n }

/-!
## Association-list and bookmark lemmas
-/

theorem alGet_alSet_self {α : Type} (l : List (String × α)) (k : String) (v : α) :
    alGet (alSet l k v) k = some v := by
  induction l with
  | nil => simp [alGet, alSet]
  | cons hd tl ih =>
    obtain ⟨n, w⟩ := hd
    by_cases h : n = k <;> simp [alGet, alSet, h, ih]

theorem alGet_alSet_ne {α : Type} (l : List (String × α)) (k k' : String) (v : α)
    (h : k' ≠ k) : alGet (alSet l k v) k' = alGet l k' := by
  have hkk : ¬(k = k') := fun hh => h hh.symm
  induction l with
  | nil => simp [alGet, alSet, hkk]
  | cons hd tl ih =>
    obtain ⟨n, w⟩ := hd
    by_cases hn : n = k
    · subst hn
      simp [alGet, alSet, hkk]
    · by_cases hn' : n = k' <;> simp [alGet, alSet, hn, hn', ih, h]

theorem get_bookmark_write_self (s : TapState) (id k : String) (v : BVal) :
    get_bookmark (write_bookmark s id k v) id k = v := by
  simp [get_bookmark, write_bookmark, alGet_alSet_self]

theorem get_bookmark_write_other_key (s : TapState) (id k k' : String) (v : BVal)
    (h : k' ≠ k) :
    get_bookmark (write_bookmark s id k v) id k' = get_bookmark s id k' := by
  simp only [get_bookmark, write_bookmark, alGet_alSet_self]
  rw [alGet_alSet_ne _ _ _ _ h]
  cases alGet s.bookmarks id <;> simp [alGet]

theorem get_bookmark_reset (s : TapState) (id k : String) :
    get_bookmark (reset_stream s id) id k = .noneB := by
  simp [get_bookmark, reset_stream, alGet_alSet_self, alGet]

/-!
## C7 — replication method / key change handling
-/

/-- The reset performed by the first branch of
`clear_state_on_replication_change`: a replication method was recorded
and differs from the configured one. -/
def methodResetCond (stream : CatalogStream) (state : TapState) : Prop :=
  get_bookmark state stream.tapStreamId "last_replication_method" ≠ .noneB ∧
    optStrB stream.replicationMethod ≠
      get_bookmark state stream.tapStreamId "last_replication_method"

/-- The reset performed by the second branch: the configured method is
`INCREMENTAL`, the first branch did not reset, a replication key was
recorded and it differs from the configured one. -/
def keyResetCond (stream : CatalogStream) (state : TapState) : Prop :=
  stream.replicationMethod = some "INCREMENTAL" ∧
    ¬methodResetCond stream state ∧
    get_bookmark state stream.tapStreamId "replication_key_name" ≠ .noneB ∧
    optStrB stream.replicationKey ≠
      get_bookmark state stream.tapStreamId "replication_key_name"

instance (stream : CatalogStream) (state : TapState) :
    Decidable (methodResetCond stream state) := by
  unfold methodResetCond; infer_instance

instance (stream : CatalogStream) (state : TapState) :
    Decidable (keyResetCond stream state) := by
  unfold keyResetCond; infer_instance

/-- Closed form of `clear_state_on_replication_change`: reset exactly
under `methodResetCond` or `keyResetCond`, then record the key (when
`INCREMENTAL`) and the method. -/
theorem clear_state_eq (stream : CatalogStream) (state : TapState) :
    clear_state_on_replication_change stream state =
      write_bookmark
        (if stream.replicationMethod = some "INCREMENTAL" then
          write_bookmark
            (if methodResetCond stream state ∨ keyResetCond stream state then
              reset_stream state stream.tapStreamId
            else state)
            stream.tapStreamId "replication_key_name" (optStrB stream.replicationKey)
        else
          (if methodResetCond stream state ∨ keyResetCond stream state then
            reset_stream state stream.tapStreamId
          else state))
        stream.tapStreamId "last_replication_method" (optStrB stream.replicationMethod) := by
  simp only [clear_state_on_replication_change, methodResetCond, keyResetCond]
  split_ifs with h1 h2 h3 h4 h5 h6 h7 h8 h9 <;>
    first
      | rfl
      | (exfalso; tauto)
      | (exfalso; exact h3.1 (get_bookmark_reset _ _ _))

/-- C7 (amended): after `clear_state_on_replication_change`, the
configured replication method is always recorded under
`last_replication_method`, the configured key is recorded under
`replication_key_name` whenever the configured method is `INCREMENTAL`,
and every other bookmark field (resume token, version, …) is forgotten
exactly when a recorded method differs from the configured one or — only
with the configured method `INCREMENTAL` — a recorded replication key
differs from the configured one; in particular nothing is reset when no
previous value was recorded. -/
theorem claim_c7_clear_state_characterization (stream : CatalogStream)
    (state : TapState) :
    (get_bookmark (clear_state_on_replication_change stream state)
        stream.tapStreamId "last_replication_method" =
      optStrB stream.replicationMethod) ∧
    (stream.replicationMethod = some "INCREMENTAL" →
      get_bookmark (clear_state_on_replication_change stream state)
          stream.tapStreamId "replication_key_name" =
        optStrB stream.replicationKey) ∧
    (∀ k, k ≠ "last_replication_method" → k ≠ "replication_key_name" →
      get_bookmark (clear_state_on_replication_change stream state)
          stream.tapStreamId k =
        if methodResetCond stream state ∨ keyResetCond stream state then .noneB
        else get_bookmark state stream.tapStreamId k) := by
  rw [clear_state_eq]
  refine ⟨get_bookmark_write_self _ _ _ _, ?_, ?_⟩
  · intro hinc
    rw [get_bookmark_write_other_key _ _ _ _ _ (by decide),
      if_pos hinc, get_bookmark_write_self]
  · intro k hk1 hk2
    rw [get_bookmark_write_other_key _ _ _ _ _ hk1]
    by_cases h2 : stream.replicationMethod = some "INCREMENTAL"
    · rw [if_pos h2, get_bookmark_write_other_key _ _ _ _ _ hk2]
      by_cases hr : methodResetCond stream state ∨ keyResetCond stream state
      · rw [if_pos hr, if_pos hr, get_bookmark_reset]
      · rw [if_neg hr, if_neg hr]
    · rw [if_neg h2]
      by_cases hr : methodResetCond stream state ∨ keyResetCond stream state
      · rw [if_pos hr, if_pos hr, get_bookmark_reset]
      · rw [if_neg hr, if_neg hr]

/-- C7 fails as stated: a stream configured with method `LOG_BASED` and
replication key `b`, whose bookmark records `replication_key_name = "a"`
(differing from the configured key) and a matching recorded method,
keeps its resume token — the bookmark is not reset, because the code
compares replication keys only when the configured method is
`INCREMENTAL`. -/
theorem claim_c7_counterexample :
    get_bookmark
      (clear_state_on_replication_change
        { tapStreamId := "db-c", stream := "c", databaseName := some "db",
          selected := some true, replicationMethod := some "LOG_BASED",
          replicationKey := some "b" }
        { bookmarks := [("db-c",
            [("last_replication_method", .strB "LOG_BASED"),
             ("replication_key_name", .strB "a"),
             ("token", .strB "tok1")])],
          currentlySyncing := none })
      "db-c" "token" = .strB "tok1" := by
  decide

/-- Witness for the C7 characterization at a concrete stream and state
(an `INCREMENTAL` stream whose recorded key `a` differs from the
configured key `b`: the token is forgotten, method and key recorded). -/
theorem claim_c7_witness :
    (get_bookmark
        (clear_state_on_replication_change
          { tapStreamId := "db-c", stream := "c", databaseName := some "db",
            selected := some true, replicationMethod := some "INCREMENTAL",
            replicationKey := some "b" }
          { bookmarks := [("db-c",
              [("last_replication_method", .strB "INCREMENTAL"),
               ("replication_key_name", .strB "a"),
               ("token", .strB "tok1")])],
            currentlySyncing := none })
        "db-c" "replication_key_name" = .strB "b") ∧
    (get_bookmark
        (clear_state_on_replication_change
          { tapStreamId := "db-c", stream := "c", databaseName := some "db",
            selected := some true, replicationMethod := some "INCREMENTAL",
            replicationKey := some "b" }
          { bookmarks := [("db-c",
              [("last_replication_method", .strB "INCREMENTAL"),
               ("replication_key_name", .strB "a"),
               ("token", .strB "tok1")])],
            currentlySyncing := none })
        "db-c" "token" = .noneB) := by
  refine ⟨(claim_c7_clear_state_characterization _ _).2.1 rfl, ?_⟩
  have h := (claim_c7_clear_state_characterization
    { tapStreamId := "db-c", stream := "c", databaseName := some "db",
      selected := some true, replicationMethod := some "INCREMENTAL",
      replicationKey := some "b" }
    { bookmarks := [("db-c",
        [("last_replication_method", .strB "INCREMENTAL"),
         ("replication_key_name", .strB "a"),
         ("token", .strB "tok1")])],
      currentlySyncing := none }).2.2 "token" (by decide) (by decide)
  rw [h, if_pos]
  right
  refine ⟨rfl, ?_, by decide, by decide⟩
  decide

/-!
## C4 — alternative ordering
-/

/-- C4: starting from the catch-all-only alternative list, observing any
temporal value and then any high-precision decimal value yields the
alternative order `[date-time, number-with-marker, catch-all]`; and
observing any decimal value then any float value converges to the single
unmarked numeric alternative `[number, catch-all]` (the float
observation removes the marker in place rather than adding a second
numeric alternative). -/
theorem claim_c4_alternative_ordering (d : DT) (r1 r2 r3 : String) :
    (add_to_any_of (add_to_any_of [SchemaEntry.catchAll] (.datetimeV d)).1
        (.decimal128V r1)).1 =
      [SchemaEntry.dateTimeE, SchemaEntry.numberE true, SchemaEntry.catchAll] ∧
    (add_to_any_of (add_to_any_of [SchemaEntry.catchAll] (.decimal128V r2)).1
        (.floatV r3)).1 =
      [SchemaEntry.numberE false, SchemaEntry.catchAll] :=
  ⟨rfl, rfl⟩

/-!
## C5 — idempotence of schema merging
-/

/-- C5 fails as stated: merging the document
`{"x": [Decimal128('1.1'), 1.5]}` into the empty schema twice returns
`changed = true` on the second call — replaying the array re-sets the
numeric precision marker at the decimal element and removes it again at
the float element, each reporting a change — even though the resulting
tree is unchanged. -/
theorem claim_c5_counterexample :
    (update_schema_from_row
        (update_schema_from_row []
          (.cons "x" (.arrV (.cons (.decimal128V "1.1") (.cons (.floatV "1.5") .nil))) .nil)).1
        (.cons "x" (.arrV (.cons (.decimal128V "1.1") (.cons (.floatV "1.5") .nil))) .nil)).2 =
      true :=
  rfl

/-!
## C3 — year-zero datetimes
-/

/-- A local timezone model behaving like UTC except that — as both the
code's comment (common.py 156-160) and the spec state — a year-zero
datetime cannot be zone-localized: localization raises
`"year is out of range"`. -/
def tzYearGuard : Tz :=
  ⟨fun d => if d.year = 0 then .error "year is out of range" else .ok d⟩

/-- C3: `safe_transform_datetime` implements the claimed fallback — a
year-zero temporal value is formatted directly as the fixed-width
UTC-style string (identical to the `%Y-%m-%dT%H:%M:%S.%fZ` format)
without localization and without raising.  But `transform_value`, the
transformer actually used to build records, raises on the same value:
its conversion dict keys `bson_datetime.datetime` and
`datetime.datetime` are the same class, so the later plain-`strftime`
entry shadows `safe_transform_datetime`, and the unguarded
pre-localization at common.py 202-205 raises before dispatch anyway,
with no handler.  Non-year-zero values are localized to UTC and
formatted with microsecond precision and the `Z` designator. -/
theorem claim_c3_year_zero_datetime :
    (∀ (d : DT) (path : List PathElem), d.year = 0 →
      safe_transform_datetime tzYearGuard d path = .ok (utilsStrftime d)) ∧
    (∀ (d : DT) (path : List PathElem), d.year = 0 →
      transform_value tzYearGuard (.datetimeV d) path =
        .error (.uncaught "year is out of range")) ∧
    (∀ (d : DT) (path : List PathElem), d.year ≠ 0 →
      transform_value tzYearGuard (.datetimeV d) path =
        .ok (.strV (utilsStrftime d))) := by
  refine ⟨?_, ?_, ?_⟩
  · intro d path h0
    simp [safe_transform_datetime, tzYearGuard, h0, utilsStrftime]
  · intro d path h0
    simp [transform_value, tzYearGuard, h0]
  · intro d path h0
    simp [transform_value, tzYearGuard, h0]

/-- Witness for C3 at concrete inputs: the year-zero datetime
`0000-01-01 00:00:00` and the ordinary datetime `2020-05-13 12:00:00`. -/
theorem claim_c3_year_zero_datetime_witness :
    safe_transform_datetime tzYearGuard ⟨0, 1, 1, 0, 0, 0, 0⟩ [] =
      .ok "0000-01-01T00:00:00.000000Z" ∧
    transform_value tzYearGuard (.datetimeV ⟨0, 1, 1, 0, 0, 0, 0⟩) [] =
      .error (.uncaught "year is out of range") ∧
    transform_value tzYearGuard (.datetimeV ⟨2020, 5, 13, 12, 0, 0, 0⟩) [] =
      .ok (.strV "2020-05-13T12:00:00.000000Z") := by
  refine ⟨?_, ?_, ?_⟩
  · rw [claim_c3_year_zero_datetime.1 ⟨0, 1, 1, 0, 0, 0, 0⟩ [] rfl]
    rfl
  · exact claim_c3_year_zero_datetime.2.1 ⟨0, 1, 1, 0, 0, 0, 0⟩ [] rfl
  · rw [claim_c3_year_zero_datetime.2.2 ⟨2020, 5, 13, 12, 0, 0, 0⟩ [] (by decide)]
    rfl

/-!
## C9 — Min/MaxKey sentinels
-/

/-- The field names of a document, in order. -/
def MFields.keys : MFields → List String
  | .nil => []
  | .cons n _ rest => n :: MFields.keys rest

theorem rowToPersist_keys_subset (tz : Tz) :
    ∀ (row out : MFields), rowToPersist tz row = .ok out → out.keys ⊆ row.keys
  | .nil, out, h => by
    simp only [rowToPersist] at h
    cases h
    simp [MFields.keys]
  | .cons n w rest, out, h => by
    simp only [rowToPersist] at h
    by_cases hs : isMinMaxKey w = true
    · rw [if_pos hs] at h
      exact (rowToPersist_keys_subset tz rest out h).trans (by simp [MFields.keys])
    · rw [if_neg hs] at h
      cases h1 : transform_value tz w [.fieldP n] with
      | error e => rw [h1] at h; simp at h
      | ok v2 =>
        rw [h1] at h
        cases h2 : rowToPersist tz rest with
        | error e => rw [h2] at h; simp at h
        | ok r2 =>
          rw [h2] at h
          simp only [Except.bind, Except.pure, Except.ok.injEq] at h
          subst h
          intro a ha
          simp only [MFields.keys, List.mem_cons] at ha ⊢
          rcases ha with ha | ha
          · exact Or.inl ha
          · exact Or.inr (rowToPersist_keys_subset tz rest r2 h2 ha)

/-- The top-level field-drop half of C9, by recursion over the row. -/
theorem rowToPersist_drops_sentinel_key (tz : Tz) :
    ∀ (row out : MFields) (k : String) (v : MongoValue),
      row.keys.Nodup → rowToPersist tz row = .ok out →
      row.lookup k = some v → isMinMaxKey v = true → k ∉ out.keys
  | .nil, out, k, v, hnd, h, hk, hs => by simp [MFields.lookup] at hk
  | .cons n w rest, out, k, v, hnd, h, hk, hs => by
    simp only [MFields.keys, List.nodup_cons] at hnd
    simp only [rowToPersist] at h
    simp only [MFields.lookup] at hk
    by_cases hn : n = k
    · subst hn
      rw [if_pos rfl] at hk
      cases hk
      rw [if_pos hs] at h
      intro hmem
      exact hnd.1 (rowToPersist_keys_subset tz rest out h hmem)
    · rw [if_neg hn] at hk
      by_cases hsw : isMinMaxKey w = true
      · rw [if_pos hsw] at h
        exact rowToPersist_drops_sentinel_key tz rest out k v hnd.2 h hk hs
      · rw [if_neg hsw] at h
        cases h1 : transform_value tz w [.fieldP n] with
        | error e => rw [h1] at h; simp at h
        | ok v2 =>
          rw [h1] at h
          cases h2 : rowToPersist tz rest with
          | error e => rw [h2] at h; simp at h
          | ok r2 =>
            rw [h2] at h
            simp only [Except.bind, Except.pure, Except.ok.injEq] at h
            subst h
            simp only [MFields.keys, List.mem_cons, not_or]
            exact ⟨hn ∘ Eq.symm,
              rowToPersist_drops_sentinel_key tz rest r2 k v hnd.2 h2 hk hs⟩

/-- C9 (amended): top-level Min/MaxKey sentinel fields are dropped from
the emitted record (for rows without duplicate field names), but the
transformation rules do not drop nested sentinels: `transform_value`
returns a Min/MaxKey value unchanged wherever it occurs inside nested
objects or arrays, so nested sentinels do appear in the output. -/
theorem claim_c9_sentinel_handling (tz : Tz) (row out : MFields)
    (k : String) (v : MongoValue) (path : List PathElem)
    (hnd : row.keys.Nodup) (h : rowToPersist tz row = .ok out)
    (hk : row.lookup k = some v) (hs : isMinMaxKey v = true) :
    k ∉ out.keys ∧
    transform_value tz .minKeyV path = .ok .minKeyV ∧
    transform_value tz .maxKeyV path = .ok .maxKeyV :=
  ⟨rowToPersist_drops_sentinel_key tz row out k v hnd h hk hs, rfl, rfl⟩

/-- Witness for C9 (amended) at a concrete row: in
`{"_id": 1, "mk": MinKey, "x": 2}` the top-level sentinel field `mk` is
dropped from the persisted record. -/
theorem claim_c9_sentinel_handling_witness :
    "mk" ∉ (MFields.cons "_id" (.intV 1) (.cons "x" (.intV 2) .nil)).keys ∧
    transform_value tzYearGuard .minKeyV [] = .ok .minKeyV ∧
    transform_value tzYearGuard .maxKeyV [] = .ok .maxKeyV :=
  claim_c9_sentinel_handling tzYearGuard
    (.cons "_id" (.intV 1) (.cons "mk" .minKeyV (.cons "x" (.intV 2) .nil)))
    (.cons "_id" (.intV 1) (.cons "x" (.intV 2) .nil))
    "mk" .minKeyV [] (by decide) rfl rfl rfl

/-- C9 fails as stated: the document `{"_id": 1, "a": [MinKey]}`
produces a record in which the min-key sentinel appears inside the
nested array — `transform_value` passes Min/MaxKey through unchanged
below the top level. -/
theorem claim_c9_counterexample :
    row_to_singer_record tzYearGuard
      { tapStreamId := "db-c", stream := "c", databaseName := some "db",
        selected := some true, replicationMethod := some "LOG_BASED",
        replicationKey := none }
      (.cons "_id" (.intV 1) (.cons "a" (.arrV (.cons .minKeyV .nil)) .nil))
      100 ⟨2020, 5, 13, 14, 10, 10, 0⟩ =
    .ok { stream := "c",
          record := .cons "_id" (.intV 1) (.cons "a" (.arrV (.cons .minKeyV .nil)) .nil),
          version := 100, timeExtracted := ⟨2020, 5, 13, 14, 10, 10, 0⟩ } :=
  rfl

/-!
## C6 — the catch-all alternative stays last
-/

theorem getLast?_cons_of_getLast? {x e : SchemaEntry} {l : List SchemaEntry}
    (h : l.getLast? = some e) : (x :: l).getLast? = some e := by
  cases l with
  | nil => simp at h
  | cons a t => rw [List.getLast?_cons_cons]; exact h

theorem pyInsert_getLast? (i : Nat) (x : SchemaEntry) :
    ∀ (l : List SchemaEntry) (e : SchemaEntry), i < l.length →
      l.getLast? = some e → (pyInsert i x l).getLast? = some e := by
  induction i with
  | zero =>
    intro l e hi he
    simp only [pyInsert]
    exact getLast?_cons_of_getLast? he
  | succ i ih =>
    intro l e hi he
    cases l with
    | nil => simp at hi
    | cons a rest =>
      simp only [pyInsert]
      have hrest : rest ≠ [] := by
        intro hc
        subst hc
        simp at hi
      have he' : rest.getLast? = some e := by
        cases rest with
        | nil => exact absurd rfl hrest
        | cons b t => rw [List.getLast?_cons_cons] at he; exact he
      have : (pyInsert i x rest).getLast? = some e :=
        ih rest e (by simpa using hi) he'
      exact getLast?_cons_of_getLast? this

theorem pyInsertBeforeLast_getLast? (x : SchemaEntry) :
    ∀ (l : List SchemaEntry) (e : SchemaEntry),
      l.getLast? = some e → (pyInsertBeforeLast x l).getLast? = some e
  | [], e, h => by simp at h
  | [a], e, h => by
    simp only [List.getLast?_singleton, Option.some.injEq] at h
    subst h
    rfl
  | a :: b :: t, e, h => by
    rw [List.getLast?_cons_cons] at h
    have := pyInsertBeforeLast_getLast? x (b :: t) e h
    simp only [pyInsertBeforeLast]
    exact getLast?_cons_of_getLast? this

theorem setFirstMultipleOf_getLast? :
    ∀ (l l' : List SchemaEntry) (e : SchemaEntry), setFirstMultipleOf l = some l' →
      l.getLast? = some e → isNumberNoMult e = false → l'.getLast? = some e
  | [], l', e, h, _, _ => by simp [setFirstMultipleOf] at h
  | a :: rest, l', e, h, he, hne => by
    simp only [setFirstMultipleOf] at h
    by_cases ha : isNumberNoMult a = true
    · rw [if_pos ha] at h
      cases h
      cases rest with
      | nil =>
        simp only [List.getLast?_singleton, Option.some.injEq] at he
        subst he
        rw [ha] at hne
        exact absurd hne (by simp)
      | cons b t =>
        rw [List.getLast?_cons_cons] at he
        exact getLast?_cons_of_getLast? he
    · rw [if_neg ha] at h
      cases hrec : setFirstMultipleOf rest with
      | none => rw [hrec] at h; simp at h
      | some r =>
        rw [hrec] at h
        simp only [Option.map_some', Option.some.injEq] at h
        subst h
        have hrest : rest ≠ [] := by
          intro hc
          subst hc
          simp [setFirstMultipleOf] at hrec
        have he' : rest.getLast? = some e := by
          cases rest with
          | nil => exact absurd rfl hrest
          | cons b t => rw [List.getLast?_cons_cons] at he; exact he
        exact getLast?_cons_of_getLast?
          (setFirstMultipleOf_getLast? rest r e hrec he' hne)

theorem popFirstMultipleOf_getLast? :
    ∀ (l l' : List SchemaEntry) (e : SchemaEntry), popFirstMultipleOf l = some l' →
      l.getLast? = some e → isNumberWithMult e = false → l'.getLast? = some e
  | [], l', e, h, _, _ => by simp [popFirstMultipleOf] at h
  | a :: rest, l', e, h, he, hne => by
    simp only [popFirstMultipleOf] at h
    by_cases ha : isNumberWithMult a = true
    · rw [if_pos ha] at h
      cases h
      cases rest with
      | nil =>
        simp only [List.getLast?_singleton, Option.some.injEq] at he
        subst he
        rw [ha] at hne
        exact absurd hne (by simp)
      | cons b t =>
        rw [List.getLast?_cons_cons] at he
        exact getLast?_cons_of_getLast? he
    · rw [if_neg ha] at h
      cases hrec : popFirstMultipleOf rest with
      | none => rw [hrec] at h; simp at h
      | some r =>
        rw [hrec] at h
        simp only [Option.map_some', Option.some.injEq] at h
        subst h
        have hrest : rest ≠ [] := by
          intro hc
          subst hc
          simp [popFirstMultipleOf] at hrec
        have he' : rest.getLast? = some e := by
          cases rest with
          | nil => exact absurd rfl hrest
          | cons b t => rw [List.getLast?_cons_cons] at he; exact he
        exact getLast?_cons_of_getLast?
          (popFirstMultipleOf_getLast? rest r e hrec he' hne)

theorem replaceLastWith_getLast? (p : SchemaEntry → Bool) (x : SchemaEntry)
    (l : List SchemaEntry) (e : SchemaEntry) (he : l.getLast? = some e)
    (hp : p e = false) : (replaceLastWith p x l).getLast? = some e := by
  unfold replaceLastWith
  rw [List.getLast?_reverse]
  have hrev : l.reverse.head? = some e := by rw [List.head?_reverse]; exact he
  cases hl : l.reverse with
  | nil => rw [hl] at hrev; simp at hrev
  | cons a t =>
    rw [hl] at hrev
    simp only [List.head?_cons, Option.some.injEq] at hrev
    subst hrev
    simp [replaceFirstWith, hp]

theorem any_date_one_lt_length (l : List SchemaEntry)
    (hd : l.any isDateTimeEntry = true) (he : l.getLast? = some .catchAll) :
    1 < l.length := by
  cases l with
  | nil => simp at hd
  | cons a t =>
    cases t with
    | nil =>
      simp only [List.getLast?_singleton, Option.some.injEq] at he
      subst he
      simp [isDateTimeEntry] at hd
    | cons b t' => simp

theorem add_to_any_of_for_datetime_types_getLast? (l : List SchemaEntry)
    (h : l.getLast? = some .catchAll) :
    (add_to_any_of_for_datetime_types l).1.getLast? = some .catchAll := by
  unfold add_to_any_of_for_datetime_types
  split_ifs
  · exact h
  · exact getLast?_cons_of_getLast? h

theorem add_to_any_of_for_decimal_types_getLast? (l : List SchemaEntry)
    (h : l.getLast? = some .catchAll) :
    (add_to_any_of_for_decimal_types l).1.getLast? = some .catchAll := by
  unfold add_to_any_of_for_decimal_types
  cases hset : setFirstMultipleOf l with
  | some s => exact setFirstMultipleOf_getLast? l s _ hset h rfl
  | none =>
    simp only []
    split_ifs with hdec hdate
    · exact pyInsert_getLast? 1 _ l _ (any_date_one_lt_length l hdate h) h
    · exact pyInsert_getLast? 0 _ l _
        (List.length_pos.mpr (by intro hc; subst hc; simp at h)) h
    · exact h

theorem add_to_any_of_for_float_types_getLast? (l : List SchemaEntry)
    (h : l.getLast? = some .catchAll) :
    (add_to_any_of_for_float_types l).1.getLast? = some .catchAll := by
  unfold add_to_any_of_for_float_types
  cases hset : popFirstMultipleOf l with
  | some s => exact popFirstMultipleOf_getLast? l s _ hset h rfl
  | none =>
    simp only []
    split_ifs with hflt hdate
    · exact pyInsert_getLast? 1 _ l _ (any_date_one_lt_length l hdate h) h
    · exact pyInsert_getLast? 0 _ l _
        (List.length_pos.mpr (by intro hc; subst hc; simp at h)) h
    · exact h

theorem dict_type_finish_getLast? (l : List SchemaEntry)
    (found : Option (List (String × List SchemaEntry)))
    (np : List (String × List SchemaEntry)) (c : Bool)
    (h : l.getLast? = some .catchAll) :
    (dict_type_finish l found np c).1.getLast? = some .catchAll := by
  unfold dict_type_finish
  cases found with
  | some p => exact replaceLastWith_getLast? _ _ l _ h rfl
  | none =>
    split_ifs
    · exact pyInsertBeforeLast_getLast? _ l _ h
    · exact h

theorem list_type_finish_getLast? (l : List SchemaEntry)
    (found : Option (List SchemaEntry)) (ni : List SchemaEntry) (c : Bool)
    (h : l.getLast? = some .catchAll) :
    (list_type_finish l found ni c).1.getLast? = some .catchAll := by
  unfold list_type_finish
  cases found with
  | some p => exact replaceLastWith_getLast? _ _ l _ h rfl
  | none =>
    split_ifs
    · exact pyInsertBeforeLast_getLast? _ l _ h
    · exact h

/-- One merge step keeps the catch-all last: the structural operations
`add_to_any_of` performs on the list are inserts at index 0, index 1 or
just-before-last, in-place marker toggles, and in-place replacement of
the (non-catch-all) object/array entry — none displaces the last
catch-all. -/
theorem add_to_any_of_getLast? (l : List SchemaEntry) (v : MongoValue)
    (h : l.getLast? = some .catchAll) :
    (add_to_any_of l v).1.getLast? = some .catchAll := by
  cases v with
  | datetimeV d => exact add_to_any_of_for_datetime_types_getLast? l h
  | timestampV t i => exact add_to_any_of_for_datetime_types_getLast? l h
  | decimal128V r => exact add_to_any_of_for_decimal_types_getLast? l h
  | floatV r => exact add_to_any_of_for_float_types_getLast? l h
  | objV fields =>
    show (dict_type_finish l (findLastObjectProps l) _ _).1.getLast? = some .catchAll
    exact dict_type_finish_getLast? l _ _ _ h
  | arrV elems =>
    show (list_type_finish l (findLastArrayItems l) _ _).1.getLast? = some .catchAll
    exact list_type_finish_getLast? l _ _ _ h
  | intV n => exact h
  | strV s => exact h
  | boolV b => exact h
  | nullV => exact h
  | pyDecimalV r => exact h
  | int64V n => exact h
  | uuidV s => exact h
  | objectIdV s => exact h
  | bytesV b => exact h
  | regexV p f => exact h
  | codeV c s => exact h
  | dbrefV i c d => exact h
  | minKeyV => exact h
  | maxKeyV => exact h

theorem add_list_entries_getLast? :
    ∀ (elems : MElems) (l : List SchemaEntry), l.getLast? = some .catchAll →
      (add_list_entries l elems).1.getLast? = some .catchAll
  | .nil, l, h => h
  | .cons e rest, l, h => by
    simp only [add_list_entries]
    exact add_list_entries_getLast? rest _ (add_to_any_of_getLast? l e h)

/-- C6: for every alternative list whose last entry is the catch-all
(as every list the merger creates starts out: `[{}]`), merging any value
— and any sequence of values — keeps the catch-all present and last:
every insertion goes to index 0, index 1 or just-before-last, and the
catch-all is never removed or displaced. -/
theorem claim_c6_catch_all_invariant (l : List SchemaEntry) (v : MongoValue)
    (vs : MElems) (h : l.getLast? = some .catchAll) :
    ((add_to_any_of l v).1.getLast? = some .catchAll) ∧
    ((add_list_entries l vs).1.getLast? = some .catchAll) :=
  ⟨add_to_any_of_getLast? l v h, add_list_entries_getLast? vs l h⟩

/-- Witness for C6 at the freshly created list `[{}]`, merging a decimal
value and then the sequence `[1.5, {"a": Timestamp}]`. -/
theorem claim_c6_catch_all_invariant_witness :
    ((add_to_any_of [SchemaEntry.catchAll] (.decimal128V "1.34")).1.getLast? =
      some .catchAll) ∧
    ((add_list_entries [SchemaEntry.catchAll]
        (.cons (.floatV "1.5")
          (.cons (.objV (.cons "a" (.timestampV 1565897157 1) .nil)) .nil))).1.getLast? =
      some .catchAll) :=
  claim_c6_catch_all_invariant [SchemaEntry.catchAll] (.decimal128V "1.34")
    (.cons (.floatV "1.5")
      (.cons (.objV (.cons "a" (.timestampV 1565897157 1) .nil)) .nil)) rfl

/-!
## C2 — the bookmark carries the token of the last executed iteration
-/

theorem processIter_none_eq (tz : Tz) (now : DT) (collection : List MFields)
    (proj : Option (MFields → MFields)) (stream : CatalogStream) (version : Int)
    (st : EngineState) (tok : String) :
    processIter tz now collection proj stream version st ⟨tok, none⟩ =
      .ok ({ st with
              tapState := update_bookmarks st.tapState stream.tapStreamId tok,
              messages := st.messages ++
                [.stateM (update_bookmarks st.tapState stream.tapStreamId tok)] },
           false) :=
  rfl

theorem processIter_ok_token (tz : Tz) (now : DT) (collection : List MFields)
    (proj : Option (MFields → MFields)) (stream : CatalogStream) (version : Int)
    (st : EngineState) (it : FeedIter) (st' : EngineState) (b : Bool)
    (h : processIter tz now collection proj stream version st it = .ok (st', b)) :
    get_bookmark st'.tapState stream.tapStreamId "token" = .strB it.token := by
  obtain ⟨tok, ch⟩ := it
  cases ch with
  | none =>
    rw [processIter_none_eq] at h
    simp only [Except.ok.injEq, Prod.mk.injEq] at h
    obtain ⟨h1, _⟩ := h
    subst h1
    simp [update_bookmarks, get_bookmark_write_self]
  | some ev =>
    simp only [processIter] at h
    cases hev : processEvent tz now stream version st ev with
    | error e => rw [hev] at h; dsimp only at h; simp at h
    | ok st1 =>
      rw [hev] at h
      dsimp only at h
      split at h
      · split at h
        · simp at h
        · split at h <;>
          · simp only [Except.ok.injEq, Prod.mk.injEq] at h
            obtain ⟨h1, _⟩ := h
            subst h1
            simp [update_bookmarks, get_bookmark_write_self]
      · simp only [Except.ok.injEq, Prod.mk.injEq] at h
        obtain ⟨h1, _⟩ := h
        subst h1
        simp [update_bookmarks, get_bookmark_write_self]

theorem processIter_some_true (tz : Tz) (now : DT) (collection : List MFields)
    (proj : Option (MFields → MFields)) (stream : CatalogStream) (version : Int)
    (st : EngineState) (tok : String) (ev : ChangeEvent) (st' : EngineState)
    (b : Bool)
    (h : processIter tz now collection proj stream version st ⟨tok, some ev⟩ =
      .ok (st', b)) : b = true := by
  simp only [processIter] at h
  cases hev : processEvent tz now stream version st ev with
  | error e => rw [hev] at h; dsimp only at h; simp at h
  | ok st1 =>
    rw [hev] at h
    dsimp only at h
    split at h
    · split at h
      · simp at h
      · split at h <;>
        · simp only [Except.ok.injEq, Prod.mk.injEq] at h
          exact h.2.symm
    · simp only [Except.ok.injEq, Prod.mk.injEq] at h
      exact h.2.symm

theorem executedIters_ne_nil (iters : List FeedIter) (h : iters ≠ []) :
    executedIters iters ≠ [] := by
  cases iters with
  | nil => exact absurd rfl h
  | cons it rest =>
    cases hch : it.change <;> simp [executedIters, hch]

theorem runLoop_bookmark_token (tz : Tz) (now : DT) (collection : List MFields)
    (proj : Option (MFields → MFields)) (stream : CatalogStream) (version : Int) :
    ∀ (iters : List FeedIter) (st stF : EngineState),
      runLoop tz now collection proj stream version st iters = .ok stF →
      iters ≠ [] →
      (executedIters iters).getLast?.map (fun it => BVal.strB it.token) =
        some (get_bookmark stF.tapState stream.tapStreamId "token") := by
  intro iters
  induction iters with
  | nil => intro st stF h hne; exact absurd rfl hne
  | cons it rest ih =>
    intro st stF h hne
    simp only [runLoop] at h
    cases hp : processIter tz now collection proj stream version st it with
    | error e => rw [hp] at h; dsimp only at h; simp at h
    | ok r =>
      obtain ⟨st1, cont⟩ := r
      rw [hp] at h
      dsimp only at h
      obtain ⟨tok, ch⟩ := it
      cases ch with
      | none =>
        have hb : cont = false := by
          rw [processIter_none_eq] at hp
          simp only [Except.ok.injEq, Prod.mk.injEq] at hp
          exact hp.2.symm
        subst hb
        simp only [Bool.false_eq_true, if_false, Except.ok.injEq] at h
        subst h
        simp only [executedIters, List.getLast?_singleton, Option.map_some']
        rw [processIter_ok_token tz now collection proj stream version st _ _ _ hp]
      | some ev =>
        have hb : cont = true :=
          processIter_some_true tz now collection proj stream version st tok ev _ _ hp
        subst hb
        simp only [if_true] at h
        cases rest with
        | nil =>
          simp only [runLoop, Except.ok.injEq] at h
          subst h
          simp only [executedIters, List.getLast?_singleton, Option.map_some']
          rw [processIter_ok_token tz now collection proj stream version st _ _ _ hp]
        | cons it2 rest2 =>
          have hrec := ih st1 stF h (by simp)
          simp only [executedIters] at hrec ⊢
          rw [← hrec]
          cases hch2 : it2.change <;> simp [executedIters, hch2]

/-- C2: after any successful run of the change-stream loop over a
nonempty iteration list, the `'token'` bookmark holds exactly the resume
token read at the start of the last executed iteration — the bookmark is
updated on every iteration regardless of event kind, and on the no-event
(idle timeout) iteration the token read there is persisted before the
loop exits. -/
theorem claim_c2_resume_token_persisted (tz : Tz) (now : DT)
    (collection : List MFields) (proj : Option (MFields → MFields))
    (stream : CatalogStream) (version : Int) (iters : List FeedIter)
    (st : EngineState) (hne : iters ≠ [])
    (hok : (runLoop tz now collection proj stream version st iters).isOk = true) :
    (runLoop tz now collection proj stream version st iters).map
        (fun stF => some (get_bookmark stF.tapState stream.tapStreamId "token")) =
      .ok ((executedIters iters).getLast?.map (fun it => BVal.strB it.token)) := by
  cases hrun : runLoop tz now collection proj stream version st iters with
  | error e => rw [hrun] at hok; simp [Except.isOk, Except.toBool] at hok
  | ok stF =>
    simp only [Except.map]
    rw [runLoop_bookmark_token tz now collection proj stream version iters st stF hrun hne]

/-- Sample catalog stream used by concrete engine witnesses. -/
def sampleStream : CatalogStream :=
  { tapStreamId := "mydb-stream1", stream := "stream1", databaseName := some "mydb",
    selected := some true, replicationMethod := some "LOG_BASED",
    replicationKey := none }

/-- Sample initial engine state used by concrete engine witnesses. -/
def sampleEngineState : EngineState :=
  { tapState := { bookmarks := [("mydb-stream1", [])], currentlySyncing := none },
    rowsSaved := 0, buffer := ∅, schema := [], messages := [] }

/-- Witness for C2: a two-iteration feed — an update event read at token
`t1`, then an idle timeout read at token `t4` — leaves `t4` in the
bookmark. -/
theorem claim_c2_resume_token_persisted_witness :
    (runLoop tzYearGuard ⟨2020, 1, 1, 0, 0, 0, 0⟩ [] none sampleStream 1
        sampleEngineState
        [⟨"t1", some (.update (.intV 2))⟩, ⟨"t4", none⟩]).map
        (fun stF => some (get_bookmark stF.tapState sampleStream.tapStreamId "token")) =
      .ok ((executedIters
          [⟨"t1", some (.update (.intV 2))⟩, ⟨"t4", none⟩]).getLast?.map
        (fun it => BVal.strB it.token)) :=
  claim_c2_resume_token_persisted tzYearGuard ⟨2020, 1, 1, 0, 0, 0, 0⟩ [] none
    sampleStream 1
    [⟨"t1", some (.update (.intV 2))⟩, ⟨"t4", none⟩]
    sampleEngineState (by simp) (by rfl)

/-!
## C10 — flush condition while the row counter is zero
-/

theorem flush_buffer_clears (tz : Tz) (now : DT) (buffer : Finset MongoValue)
    (stream : CatalogStream) (collection : List MFields)
    (proj : Option (MFields → MFields)) (version : Int) (schema : SchemaProps)
    (msgs : List SingerMessage) (n : Nat) (buf : Finset MongoValue)
    (schema1 : SchemaProps)
    (h : flush_buffer tz now buffer stream collection proj version schema =
      .ok (msgs, n, buf, schema1)) : buf = ∅ := by
  unfold flush_buffer at h
  cases hfr : flushRows tz now stream version
      (get_buffer_rows_from_db collection buffer proj) schema with
  | error e => rw [hfr] at h; dsimp only at h; simp at h
  | ok t =>
    obtain ⟨m2, n2, s2⟩ := t
    rw [hfr] at h
    dsimp only at h
    simp only [Except.ok.injEq, Prod.mk.injEq] at h
    exact h.2.2.1.symm

/-- C10: on an update-event iteration, because the flush trigger is
`len(buffer) >= 500 or rows_saved % 1000 == 0` and an update does not
touch the counter, a zero (or any multiple-of-1000) counter satisfies the
flush condition on every iteration — the buffer is flushed (emptied by a
batched re-fetch) immediately after every single update event; the
500-identifier cap only governs batching once the counter is a nonzero
non-multiple of 1000, in which case the buffer accumulates below the cap
and is flushed at the cap. -/
theorem claim_c10_zero_counter_flushes (tz : Tz) (now : DT)
    (collection : List MFields) (proj : Option (MFields → MFields))
    (stream : CatalogStream) (version : Int) (st : EngineState)
    (i : MongoValue) (tok : String) :
    (st.rowsSaved % UPDATE_BOOKMARK_PERIOD = 0 →
      ∀ (st' : EngineState) (b : Bool),
        processIter tz now collection proj stream version st
            ⟨tok, some (.update i)⟩ = .ok (st', b) →
        st'.buffer = ∅) ∧
    (st.rowsSaved % UPDATE_BOOKMARK_PERIOD ≠ 0 →
      (insert i st.buffer).card < MAX_UPDATE_BUFFER_LENGTH →
      processIter tz now collection proj stream version st
          ⟨tok, some (.update i)⟩ =
        .ok ({ st with
                buffer := insert i st.buffer,
                tapState := update_bookmarks st.tapState stream.tapStreamId tok },
             true)) ∧
    (st.rowsSaved % UPDATE_BOOKMARK_PERIOD ≠ 0 →
      MAX_UPDATE_BUFFER_LENGTH ≤ (insert i st.buffer).card →
      ∀ (st' : EngineState) (b : Bool),
        processIter tz now collection proj stream version st
            ⟨tok, some (.update i)⟩ = .ok (st', b) →
        st'.buffer = ∅) := by
  refine ⟨?_, ?_, ?_⟩
  · intro h0 st' b h
    simp only [processIter, processEvent] at h
    rw [if_pos (Or.inr h0)] at h
    split at h
    · simp at h
    · rename_i msgs n buf schema1 heq
      split at h <;>
      · simp only [Except.ok.injEq, Prod.mk.injEq] at h
        obtain ⟨h1, _⟩ := h
        subst h1
        exact flush_buffer_clears tz now _ stream collection proj version _ _ _ _ _ heq
  · intro h0 hcard
    simp only [processIter, processEvent]
    rw [if_neg]
    push_neg
    exact ⟨by simpa [MAX_UPDATE_BUFFER_LENGTH] using hcard, h0⟩
  · intro h0 hcard st' b h
    simp only [processIter, processEvent] at h
    rw [if_pos (Or.inl hcard)] at h
    split at h
    · simp at h
    · rename_i msgs n buf schema1 heq
      split at h <;>
      · simp only [Except.ok.injEq, Prod.mk.injEq] at h
        obtain ⟨h1, _⟩ := h
        subst h1
        exact flush_buffer_clears tz now _ stream collection proj version _ _ _ _ _ heq

/-- Witness for C10 at concrete inputs: with the counter at 0 an update
event leaves an empty buffer behind (flushed immediately); with the
counter at 1 the same update event accumulates in the buffer. -/
theorem claim_c10_zero_counter_flushes_witness :
    ({ sampleEngineState with
        buffer := (∅ : Finset MongoValue),
        tapState := update_bookmarks sampleEngineState.tapState
          sampleStream.tapStreamId "t1",
        messages := sampleEngineState.messages ++
          [.stateM (update_bookmarks sampleEngineState.tapState
            sampleStream.tapStreamId "t1")] } : EngineState).buffer = ∅ ∧
    processIter tzYearGuard ⟨2020, 1, 1, 0, 0, 0, 0⟩ [] none sampleStream 1
        { sampleEngineState with rowsSaved := 1 } ⟨"t1", some (.update (.intV 2))⟩ =
      .ok ({ { sampleEngineState with rowsSaved := 1 } with
              buffer := insert (.intV 2) sampleEngineState.buffer,
              tapState := update_bookmarks sampleEngineState.tapState
                sampleStream.tapStreamId "t1" }, true) := by
  constructor
  · exact (claim_c10_zero_counter_flushes tzYearGuard ⟨2020, 1, 1, 0, 0, 0, 0⟩ []
      none sampleStream 1 sampleEngineState (.intV 2) "t1").1 rfl _ true rfl
  · exact (claim_c10_zero_counter_flushes tzYearGuard ⟨2020, 1, 1, 0, 0, 0, 0⟩ []
      none sampleStream 1 { sampleEngineState with rowsSaved := 1 } (.intV 2)
      "t1").2.1 (by decide) (by decide)

/-!
## C1 — flushing the update buffer
-/

/-- Is this singer message a data record? -/
def isRecordMessage : SingerMessage → Bool
  | .recordM _ => true
  | _ => false

theorem cs_write_schema_no_records (schema : SchemaProps) (row : MFields)
    (stream : CatalogStream) :
    (cs_write_schema schema row stream).2.filter isRecordMessage = [] := by
  unfold cs_write_schema
  cases hrs : row_to_schema schema row with
  | mk s1 c =>
    dsimp only
    cases c <;> simp [isRecordMessage]

theorem flushRows_ok_of_all_ok (tz : Tz) (now : DT) (stream : CatalogStream)
    (version : Int) :
    ∀ (rows : List MFields) (schema : SchemaProps),
      (∀ r ∈ rows, (row_to_singer_record tz stream r version now).isOk = true) →
      ∃ msgs n schema2,
        flushRows tz now stream version rows schema = .ok (msgs, n, schema2) ∧
        n = rows.length ∧ (msgs.filter isRecordMessage).length = rows.length := by
  intro rows
  induction rows with
  | nil => exact fun schema _ => ⟨[], 0, schema, rfl, rfl, rfl⟩
  | cons r rest ih =>
    intro schema hok
    obtain ⟨schema1, schemaMsgs, hcs⟩ :
        ∃ s m, cs_write_schema schema r stream = (s, m) :=
      ⟨_, _, rfl⟩
    cases hr : row_to_singer_record tz stream r version now with
    | error e =>
      have := hok r (by simp)
      rw [hr] at this
      simp [Except.isOk, Except.toBool] at this
    | ok rcd =>
      obtain ⟨msgs, n, schema2, heq, hn, hcount⟩ :=
        ih schema1 (fun x hx => hok x (by simp [hx]))
      refine ⟨schemaMsgs ++ [.recordM rcd] ++ msgs, n + 1, schema2, ?_, ?_, ?_⟩
      · simp only [flushRows]
        rw [hcs]
        dsimp only
        rw [hr, heq]
      · simp [hn]
      · have hsm : schemaMsgs.filter isRecordMessage = [] := by
          have := cs_write_schema_no_records schema r stream
          rw [hcs] at this
          exact this
        simp [List.filter_append, hsm, isRecordMessage, hcount]

theorem get_buffer_rows_length (collection : List MFields)
    (buffer : Finset MongoValue) (proj : Option (MFields → MFields)) :
    (get_buffer_rows_from_db collection buffer proj).length =
      ((collection.filterMap docId).filter (fun i => i ∈ buffer)).length := by
  unfold get_buffer_rows_from_db
  rw [List.length_map]
  induction collection with
  | nil => rfl
  | cons d rest ih =>
    cases hd : docId d with
    | none => simpa [List.filter_cons, List.filterMap_cons, hd] using ih
    | some i =>
      by_cases hi : i ∈ buffer <;>
        simpa [List.filter_cons, List.filterMap_cons, hd, hi] using ih

theorem filter_length_eq_card (L : List MongoValue) (buffer : Finset MongoValue)
    (h : L.Nodup) :
    (L.filter (fun i => i ∈ buffer)).length =
      (buffer.filter (fun i => i ∈ L)).card := by
  rw [← List.toFinset_card_of_nodup (h.filter _)]
  have hfin : (L.filter (fun i => i ∈ buffer)).toFinset =
      buffer.filter (fun i => i ∈ L) := by
    ext i
    simp [List.mem_toFinset, List.mem_filter, Finset.mem_filter, and_comm]
  rw [hfin]

/-- C1: flushing the update buffer performs one batched lookup of the
buffered identifiers, succeeds (raising no error for identifiers whose
documents are absent), emits exactly one record per buffered identifier
whose document is found in the collection, and returns an empty buffer
(`buffer.clear()`), assuming the collection's `_id`s are unique and the
found documents themselves transform without error. -/
theorem claim_c1_flush_buffer (tz : Tz) (now : DT) (buffer : Finset MongoValue)
    (stream : CatalogStream) (collection : List MFields)
    (proj : Option (MFields → MFields)) (version : Int) (schema : SchemaProps)
    (hnodup : (collection.filterMap docId).Nodup)
    (hok : ∀ r ∈ get_buffer_rows_from_db collection buffer proj,
      (row_to_singer_record tz stream r version now).isOk = true) :
    ∃ msgs n schema2,
      flush_buffer tz now buffer stream collection proj version schema =
        .ok (msgs, n, ∅, schema2) ∧
      n = (buffer.filter (fun i => i ∈ collection.filterMap docId)).card ∧
      (msgs.filter isRecordMessage).length = n := by
  obtain ⟨msgs, n, schema2, heq, hn, hcount⟩ :=
    flushRows_ok_of_all_ok tz now stream version
      (get_buffer_rows_from_db collection buffer proj) schema hok
  refine ⟨msgs, n, schema2, ?_, ?_, ?_⟩
  · unfold flush_buffer
    rw [heq]
  · rw [hn, get_buffer_rows_length, filter_length_eq_card _ _ hnodup]
  · rw [hcount, hn]

/-- Witness for C1: a buffer of 4 identifiers over a collection holding
only 3 of them yields a successful flush with exactly 3 records
and an empty buffer. -/
theorem claim_c1_flush_buffer_witness :
    ∃ msgs n schema2,
      flush_buffer tzYearGuard ⟨2020, 1, 1, 0, 0, 0, 0⟩
          ({.intV 1, .intV 2, .intV 3, .intV 4} : Finset MongoValue)
          sampleStream
          [MFields.cons "_id" (.intV 1) (.cons "key1" (.intV 10) .nil),
           MFields.cons "_id" (.intV 2) (.cons "key2" (.strV "abc") .nil),
           MFields.cons "_id" (.intV 3) .nil]
          none 1 [] =
        .ok (msgs, n, ∅, schema2) ∧
      n = (({.intV 1, .intV 2, .intV 3, .intV 4} : Finset MongoValue).filter
        (fun i => i ∈
          [MFields.cons "_id" (.intV 1) (.cons "key1" (.intV 10) .nil),
           MFields.cons "_id" (.intV 2) (.cons "key2" (.strV "abc") .nil),
           MFields.cons "_id" (.intV 3) .nil].filterMap docId)).card ∧
      (msgs.filter isRecordMessage).length = n :=
  claim_c1_flush_buffer tzYearGuard ⟨2020, 1, 1, 0, 0, 0, 0⟩
    ({.intV 1, .intV 2, .intV 3, .intV 4} : Finset MongoValue)
    sampleStream
    [MFields.cons "_id" (.intV 1) (.cons "key1" (.intV 10) .nil),
     MFields.cons "_id" (.intV 2) (.cons "key2" (.strV "abc") .nil),
     MFields.cons "_id" (.intV 3) .nil]
    none 1 [] (by decide) (by decide)

/-!
## C8 — stream ordering
-/

theorem ordered_streams_perm (streams : List CatalogStream) (state : TapState) :
    List.Perm (ordered_streams streams state) (streams.filter is_stream_selected) := by
  unfold ordered_streams
  have h := List.filter_append_perm
    (fun s => hasTruthyBookmark state s.tapStreamId)
    (streams.filter is_stream_selected)
  refine List.Perm.trans (List.perm_append_comm.trans ?_) h
  apply List.Perm.append
  · rfl
  · apply List.Perm.refl

theorem filter_id_eq_singleton (c : String) :
    ∀ (l : List CatalogStream),
      (l.map CatalogStream.tapStreamId).Nodup →
      ∀ s0 ∈ l, s0.tapStreamId = c →
      l.filter (fun s => s.tapStreamId = c) = [s0] := by
  intro l
  induction l with
  | nil => intro _ s0 h0; simp at h0
  | cons a t ih =>
    intro hnd s0 h0 hc
    simp only [List.map_cons, List.nodup_cons] at hnd
    rcases List.mem_cons.mp h0 with h0 | h0
    · subst h0
      have ht : t.filter (fun s => s.tapStreamId = c) = [] := by
        rw [List.filter_eq_nil_iff]
        intro x hx
        simp only [decide_eq_true_eq]
        intro hxc
        exact hnd.1 (by rw [hc, ← hxc]; exact List.mem_map_of_mem _ hx)
      simp [List.filter_cons, hc, ht]
    · have hac : ¬(a.tapStreamId = c) := by
        intro hacc
        exact hnd.1 (by rw [hacc, ← hc]; exact List.mem_map_of_mem _ h0)
      simp only [List.filter_cons, decide_eq_true_eq]
      rw [if_neg hac]
      exact ih hnd.2 s0 h0 hc

/-- C8: the orchestrator's ordering — the result is a permutation of the
selected streams (only and all selected streams appear); with no truthy
`currently_syncing` marker, every selected stream without a truthy
bookmark precedes every one with one; and when the marker names a
selected stream (with catalog stream ids unique), that stream is first
and the remaining streams keep their bookmark-based relative order. -/
theorem claim_c8_stream_ordering (streams : List CatalogStream)
    (state : TapState)
    (hnodup : (streams.map CatalogStream.tapStreamId).Nodup) :
    List.Perm (get_streams_to_sync streams state)
      (streams.filter is_stream_selected) ∧
    (truthyCurrentlySyncing state = none →
      (get_streams_to_sync streams state).Pairwise
        (fun a b => hasTruthyBookmark state a.tapStreamId = true →
          hasTruthyBookmark state b.tapStreamId = true)) ∧
    (∀ c s0, truthyCurrentlySyncing state = some c →
      s0 ∈ streams → is_stream_selected s0 = true → s0.tapStreamId = c →
      get_streams_to_sync streams state =
        s0 :: (ordered_streams streams state).filter
          (fun s => ¬(s.tapStreamId = c))) := by
  refine ⟨?_, ?_, ?_⟩
  · unfold get_streams_to_sync
    cases hcs : truthyCurrentlySyncing state with
    | none => exact ordered_streams_perm streams state
    | some c =>
      refine List.Perm.trans ?_ (ordered_streams_perm streams state)
      have h := List.filter_append_perm (fun s => s.tapStreamId = c)
        (ordered_streams streams state)
      refine List.Perm.trans ?_ h
      apply List.Perm.append (List.Perm.refl _)
      have : ∀ s : CatalogStream,
          (decide (s.tapStreamId ≠ c)) = !(decide (s.tapStreamId = c)) := by
        intro s; simp
      rw [List.filter_congr (fun x _ => this x)]
  · intro hcs
    unfold get_streams_to_sync
    rw [hcs]
    unfold ordered_streams
    rw [List.pairwise_append]
    refine ⟨?_, ?_, ?_⟩
    · apply List.pairwise_of_forall_mem_list
      intro a ha b hb hab
      rw [List.mem_filter] at ha
      simp only [Bool.not_eq_true'] at ha
      rw [ha.2] at hab
      exact absurd hab (by simp)
    · apply List.pairwise_of_forall_mem_list
      intro a ha b hb _
      rw [List.mem_filter] at hb
      exact hb.2
    · intro a ha b hb _
      rw [List.mem_filter] at hb
      exact hb.2
  · intro c s0 hcs hmem hsel hc
    unfold get_streams_to_sync
    rw [hcs]
    dsimp only
    have hperm : List.Perm (ordered_streams streams state)
        (streams.filter is_stream_selected) := ordered_streams_perm streams state
    have hnd2 : ((ordered_streams streams state).map CatalogStream.tapStreamId).Nodup := by
      refine (List.Perm.nodup_iff (List.Perm.map _ hperm)).mpr ?_
      exact hnodup.sublist ((List.filter_sublist streams).map _)
    have hmem2 : s0 ∈ ordered_streams streams state :=
      (hperm.mem_iff).mpr (List.mem_filter.mpr ⟨hmem, hsel⟩)
    rw [filter_id_eq_singleton c (ordered_streams streams state) hnd2 s0 hmem2 hc]
    rfl

/-- Witness for C8 at a concrete catalog: three selected streams (`a`
with no bookmark, `b` with a bookmark, `d` unselected) and a
`currently_syncing` marker naming `b`: the result is `b` first, then
`a`, and `d` never appears. -/
theorem claim_c8_stream_ordering_witness :
    List.Perm
      (get_streams_to_sync
        [{ tapStreamId := "a", stream := "a", databaseName := none,
           selected := some true, replicationMethod := some "LOG_BASED",
           replicationKey := none },
         { tapStreamId := "b", stream := "b", databaseName := none,
           selected := some true, replicationMethod := some "LOG_BASED",
           replicationKey := none },
         { tapStreamId := "d", stream := "d", databaseName := none,
           selected := some false, replicationMethod := some "LOG_BASED",
           replicationKey := none }]
        { bookmarks := [("b", [("token", .strB "t")])],
          currentlySyncing := some "b" })
      ([{ tapStreamId := "a", stream := "a", databaseName := none,
          selected := some true, replicationMethod := some "LOG_BASED",
          replicationKey := none },
        { tapStreamId := "b", stream := "b", databaseName := none,
          selected := some true, replicationMethod := some "LOG_BASED",
          replicationKey := none },
        { tapStreamId := "d", stream := "d", databaseName := none,
          selected := some false, replicationMethod := some "LOG_BASED",
          replicationKey := none }].filter is_stream_selected) :=
  (claim_c8_stream_ordering
    [{ tapStreamId := "a", stream := "a", databaseName := none,
       selected := some true, replicationMethod := some "LOG_BASED",
       replicationKey := none },
     { tapStreamId := "b", stream := "b", databaseName := none,
       selected := some true, replicationMethod := some "LOG_BASED",
       replicationKey := none },
     { tapStreamId := "d", stream := "d", databaseName := none,
       selected := some false, replicationMethod := some "LOG_BASED",
       replicationKey := none }]
    { bookmarks := [("b", [("token", .strB "t")])],
      currentlySyncing := some "b" }
    (by decide)).1

/-!
## C5 — idempotence for array-free documents

The counterexample above shows the claim fails when one array value
mixes decimal and float elements (the shared numeric slot's precision
marker is toggled back and forth, reporting a change on every merge).
For documents without array values (and without duplicate field names,
as Python dicts guarantee) the merge is idempotent; the development
below proves it, maintaining the invariant that every alternative list
the merger maintains holds at most one numeric entry.
-/

/-- `entry.get('type') == 'number'` (marker or not). -/
def isNumberEntry : SchemaEntry → Bool
  | .numberE _ => true
  | _ => false

/-- The number of numeric entries of an alternative list. -/
def countNumbers (l : List SchemaEntry) : Nat := l.countP isNumberEntry

/-- Does the row bind the key `k`? -/
def rowHasKey : MFields → String → Bool
  | .nil, _ => false
  | .cons n _ rest, k => n = k || rowHasKey rest k

mutual

/-- Array-free values: no `arrV` anywhere, nested rows have distinct
keys (as Python dicts do). -/
def valueNice : MongoValue → Bool
  | .objV fields => rowNice fields
  | .arrV _ => false
  | _ => true

/-- Array-free rows with distinct field names and array-free values. -/
def rowNice : MFields → Bool
  | .nil => true
  | .cons n v rest => !rowHasKey rest n && valueNice v && rowNice rest

end

mutual

/-- Well-formedness of a schema entry: the properties of an object
entry are well-formed (array entries are never entered when merging
array-free values, so they are unconstrained). -/
def entryWF : SchemaEntry → Prop
  | .objectE props => propsOKd props
  | _ => True
termination_by e => sizeOf e

/-- Every entry of the list is well-formed. -/
def slotAllWF : List SchemaEntry → Prop
  | [] => True
  | e :: rest => entryWF e ∧ slotAllWF rest
termination_by l => sizeOf l

/-- Every slot of a properties list holds at most one numeric entry and
only well-formed entries. -/
def propsOKd : List (String × List SchemaEntry) → Prop
  | [] => True
  | (_, s) :: rest => countNumbers s ≤ 1 ∧ slotAllWF s ∧ propsOKd rest
termination_by props => sizeOf props

end

theorem slotAllWF_iff : ∀ (l : List SchemaEntry), slotAllWF l ↔ ∀ e ∈ l, entryWF e := by
  intro l
  induction l with
  | nil => simp [slotAllWF]
  | cons e rest ih => simp [slotAllWF, ih]

theorem propsOKd_iff : ∀ (props : List (String × List SchemaEntry)),
    propsOKd props ↔
      ∀ kv ∈ props, countNumbers kv.2 ≤ 1 ∧ slotAllWF kv.2 := by
  intro props
  induction props with
  | nil => simp [propsOKd]
  | cons kv rest ih =>
    obtain ⟨n, s⟩ := kv
    simp [propsOKd, ih, and_assoc]

theorem entryWF_objectE (props : List (String × List SchemaEntry)) :
    entryWF (.objectE props) ↔ propsOKd props := by
  simp [entryWF]

theorem entryWF_of_not_object (e : SchemaEntry) (h : isObjectEntry e = false) :
    entryWF e := by
  cases e <;> simp [entryWF] <;> simp [isObjectEntry] at h

theorem isNumberEntry_of_noMult (e : SchemaEntry) (h : isNumberNoMult e = true) :
    isNumberEntry e = true := by
  cases e <;> simp_all [isNumberNoMult, isNumberEntry]

theorem isNumberEntry_of_withMult (e : SchemaEntry) (h : isNumberWithMult e = true) :
    isNumberEntry e = true := by
  cases e <;> simp_all [isNumberWithMult, isNumberEntry]

theorem noMult_eq (e : SchemaEntry) (h : isNumberNoMult e = true) :
    e = .numberE false := by
  cases e <;> simp_all [isNumberNoMult]

theorem withMult_eq (e : SchemaEntry) (h : isNumberWithMult e = true) :
    e = .numberE true := by
  cases e <;> simp_all [isNumberWithMult]

theorem count_zero_no_any (l : List SchemaEntry) (h : countNumbers l = 0) :
    l.any isNumberNoMult = false ∧ l.any isNumberWithMult = false := by
  unfold countNumbers at h
  constructor <;>
  · rw [← Bool.not_eq_true, List.any_eq_true]
    rintro ⟨e, he, hp⟩
    have : isNumberEntry e = true := by
      first
        | exact isNumberEntry_of_noMult e hp
        | exact isNumberEntry_of_withMult e hp
    have := List.countP_pos.mpr ⟨e, he, this⟩
    omega

theorem count_zero_of_no_any (l : List SchemaEntry)
    (h1 : l.any isNumberNoMult = false) (h2 : l.any isNumberWithMult = false) :
    countNumbers l = 0 := by
  unfold countNumbers
  rw [← Bool.not_eq_true, List.any_eq_true] at h1 h2
  by_contra hc
  obtain ⟨e, he, hp⟩ := List.countP_pos.mp (Nat.pos_of_ne_zero hc)
  cases e <;> simp [isNumberEntry] at hp
  rename_i m
  cases m
  · exact h1 ⟨_, he, by simp [isNumberNoMult]⟩
  · exact h2 ⟨_, he, by simp [isNumberWithMult]⟩

theorem setFirstMultipleOf_none_iff (l : List SchemaEntry) :
    setFirstMultipleOf l = none ↔ l.any isNumberNoMult = false := by
  induction l with
  | nil => simp [setFirstMultipleOf]
  | cons e rest ih =>
    by_cases he : isNumberNoMult e = true <;>
      simp [setFirstMultipleOf, he, ih, Option.map_eq_none']

theorem popFirstMultipleOf_none_iff (l : List SchemaEntry) :
    popFirstMultipleOf l = none ↔ l.any isNumberWithMult = false := by
  induction l with
  | nil => simp [popFirstMultipleOf]
  | cons e rest ih =>
    by_cases he : isNumberWithMult e = true <;>
      simp [popFirstMultipleOf, he, ih, Option.map_eq_none']

theorem setFirstMultipleOf_decomp :
    ∀ (l s : List SchemaEntry), setFirstMultipleOf l = some s →
      ∃ l1 l2, l = l1 ++ SchemaEntry.numberE false :: l2 ∧
        s = l1 ++ SchemaEntry.numberE true :: l2 ∧
        l1.any isNumberNoMult = false := by
  intro l
  induction l with
  | nil => intro s h; simp [setFirstMultipleOf] at h
  | cons e rest ih =>
    intro s h
    simp only [setFirstMultipleOf] at h
    by_cases he : isNumberNoMult e = true
    · rw [if_pos he] at h
      simp only [Option.some.injEq] at h
      subst h
      exact ⟨[], rest, by rw [noMult_eq e he]; rfl, rfl, rfl⟩
    · rw [if_neg he] at h
      cases hrec : setFirstMultipleOf rest with
      | none => rw [hrec] at h; simp at h
      | some r =>
        rw [hrec] at h
        simp only [Option.map_some', Option.some.injEq] at h
        subst h
        obtain ⟨l1, l2, h1, h2, h3⟩ := ih r hrec
        exact ⟨e :: l1, l2, by simp [h1], by simp [h2],
          by simp [h3, Bool.eq_false_iff.mpr he]⟩

theorem popFirstMultipleOf_decomp :
    ∀ (l s : List SchemaEntry), popFirstMultipleOf l = some s →
      ∃ l1 l2, l = l1 ++ SchemaEntry.numberE true :: l2 ∧
        s = l1 ++ SchemaEntry.numberE false :: l2 ∧
        l1.any isNumberWithMult = false := by
  intro l
  induction l with
  | nil => intro s h; simp [popFirstMultipleOf] at h
  | cons e rest ih =>
    intro s h
    simp only [popFirstMultipleOf] at h
    by_cases he : isNumberWithMult e = true
    · rw [if_pos he] at h
      simp only [Option.some.injEq] at h
      subst h
      exact ⟨[], rest, by rw [withMult_eq e he]; rfl, rfl, rfl⟩
    · rw [if_neg he] at h
      cases hrec : popFirstMultipleOf rest with
      | none => rw [hrec] at h; simp at h
      | some r =>
        rw [hrec] at h
        simp only [Option.map_some', Option.some.injEq] at h
        subst h
        obtain ⟨l1, l2, h1, h2, h3⟩ := ih r hrec
        exact ⟨e :: l1, l2, by simp [h1], by simp [h2],
          by simp [h3, Bool.eq_false_iff.mpr he]⟩

theorem pyInsert_parts (x : SchemaEntry) :
    ∀ (i : Nat) (l : List SchemaEntry),
      ∃ l1 l2, l = l1 ++ l2 ∧ pyInsert i x l = l1 ++ x :: l2 := by
  intro i
  induction i with
  | zero => intro l; exact ⟨[], l, rfl, rfl⟩
  | succ i ih =>
    intro l
    cases l with
    | nil => exact ⟨[], [], rfl, rfl⟩
    | cons a rest =>
      obtain ⟨l1, l2, h1, h2⟩ := ih rest
      exact ⟨a :: l1, l2, by simp [h1], by simp [pyInsert, h2]⟩

theorem pyInsertBeforeLast_parts (x : SchemaEntry) :
    ∀ (l : List SchemaEntry),
      ∃ l1 l2, l = l1 ++ l2 ∧ pyInsertBeforeLast x l = l1 ++ x :: l2
  | [] => ⟨[], [], rfl, rfl⟩
  | [a] => ⟨[], [a], rfl, rfl⟩
  | a :: b :: t => by
    obtain ⟨l1, l2, h1, h2⟩ := pyInsertBeforeLast_parts x (b :: t)
    exact ⟨a :: l1, l2, by simp [← h1], by simp [pyInsertBeforeLast, h2]⟩

theorem replaceFirstWith_parts (p : SchemaEntry → Bool) (x : SchemaEntry) :
    ∀ (rl : List SchemaEntry) (e : SchemaEntry), rl.find? p = some e →
      ∃ r1 r2, rl = r1 ++ e :: r2 ∧ replaceFirstWith p x rl = r1 ++ x :: r2 := by
  intro rl
  induction rl with
  | nil => intro e h; simp at h
  | cons a t ih =>
    intro e h
    by_cases ha : p a = true
    · rw [List.find?_cons_of_pos _ ha] at h
      simp only [Option.some.injEq] at h
      subst h
      exact ⟨[], t, rfl, by simp [replaceFirstWith, ha]⟩
    · rw [List.find?_cons_of_neg _ (by simpa using ha)] at h
      obtain ⟨r1, r2, h1, h2⟩ := ih e h
      exact ⟨a :: r1, r2, by simp [h1],
        by simp [replaceFirstWith, ha, h2]⟩

theorem replaceFirstWith_self (p : SchemaEntry → Bool) (x : SchemaEntry) :
    ∀ (rl : List SchemaEntry), rl.find? p = some x → replaceFirstWith p x rl = rl := by
  intro rl
  induction rl with
  | nil => intro h; simp at h
  | cons a t ih =>
    intro h
    by_cases ha : p a = true
    · rw [List.find?_cons_of_pos _ ha] at h
      simp only [Option.some.injEq] at h
      subst h
      simp [replaceFirstWith, ha]
    · rw [List.find?_cons_of_neg _ (by simpa using ha)] at h
      simp [replaceFirstWith, ha, ih h]

theorem find?_replaceFirstWith (p : SchemaEntry → Bool) (x : SchemaEntry)
    (hx : p x = true) :
    ∀ (rl : List SchemaEntry) (e : SchemaEntry), rl.find? p = some e →
      (replaceFirstWith p x rl).find? p = some x := by
  intro rl
  induction rl with
  | nil => intro e h; simp at h
  | cons a t ih =>
    intro e h
    by_cases ha : p a = true
    · simp [replaceFirstWith, ha, List.find?_cons_of_pos _ hx]
    · rw [List.find?_cons_of_neg _ (by simpa using ha)] at h
      simp only [replaceFirstWith, if_neg ha]
      rw [List.find?_cons_of_neg _ (by simpa using ha)]
      exact ih e h

theorem isObjectEntry_eq (e : SchemaEntry) (h : isObjectEntry e = true) :
    ∃ p, e = .objectE p := by
  cases e <;> simp_all [isObjectEntry]

theorem findLastObjectProps_some_find (l : List SchemaEntry)
    (p : List (String × List SchemaEntry)) (h : findLastObjectProps l = some p) :
    l.reverse.find? isObjectEntry = some (.objectE p) := by
  unfold findLastObjectProps at h
  cases hf : l.reverse.find? isObjectEntry with
  | none => rw [hf] at h; simp at h
  | some e =>
    obtain ⟨q, rfl⟩ := isObjectEntry_eq e (List.find?_some hf)
    rw [hf] at h
    simp only [Option.some.injEq] at h
    rw [h]

theorem findLastObjectProps_none_find (l : List SchemaEntry)
    (h : findLastObjectProps l = none) :
    l.reverse.find? isObjectEntry = none := by
  unfold findLastObjectProps at h
  cases hf : l.reverse.find? isObjectEntry with
  | none => rfl
  | some e =>
    obtain ⟨q, rfl⟩ := isObjectEntry_eq e (List.find?_some hf)
    rw [hf] at h
    simp at h

theorem replaceLastWith_reverse (p : SchemaEntry → Bool) (x : SchemaEntry)
    (l : List SchemaEntry) :
    (replaceLastWith p x l).reverse = replaceFirstWith p x l.reverse := by
  unfold replaceLastWith
  rw [List.reverse_reverse]

theorem find?_replaceLastWith_object (l : List SchemaEntry)
    (np : List (String × List SchemaEntry)) (e : SchemaEntry)
    (h : l.reverse.find? isObjectEntry = some e) :
    (replaceLastWith isObjectEntry (.objectE np) l).reverse.find? isObjectEntry =
      some (.objectE np) := by
  rw [replaceLastWith_reverse]
  exact find?_replaceFirstWith isObjectEntry (.objectE np) rfl l.reverse e h

theorem find?_pyInsertBeforeLast_object (l : List SchemaEntry)
    (np : List (String × List SchemaEntry))
    (h : l.reverse.find? isObjectEntry = none) :
    (pyInsertBeforeLast (.objectE np) l).reverse.find? isObjectEntry =
      some (.objectE np) := by
  obtain ⟨l1, l2, h1, h2⟩ := pyInsertBeforeLast_parts (.objectE np) l
  have hno : ∀ e ∈ l, isObjectEntry e = false := by
    intro e he
    have := List.find?_eq_none.mp h e (by simpa using he)
    simpa using this
  rw [h2]
  simp only [List.reverse_append, List.reverse_cons, List.append_assoc,
    List.singleton_append]
  rw [List.find?_append]
  have hl2 : l2.reverse.find? isObjectEntry = none := by
    rw [List.find?_eq_none]
    intro e he
    simp only [List.mem_reverse] at he
    simp [hno e (by rw [h1]; exact List.mem_append_right _ he)]
  rw [hl2]
  simp [List.find?_cons_of_pos, isObjectEntry]

theorem replaceLastWith_self (p : SchemaEntry → Bool) (x : SchemaEntry)
    (l : List SchemaEntry) (h : l.reverse.find? p = some x) :
    replaceLastWith p x l = l := by
  unfold replaceLastWith
  rw [replaceFirstWith_self p x l.reverse h, List.reverse_reverse]

theorem findLastObjectProps_of_find (l : List SchemaEntry)
    (np : List (String × List SchemaEntry))
    (h : l.reverse.find? isObjectEntry = some (.objectE np)) :
    findLastObjectProps l = some np := by
  unfold findLastObjectProps
  rw [h]

theorem countNumbers_middle (l1 l2 : List SchemaEntry) (x : SchemaEntry) :
    countNumbers (l1 ++ x :: l2) =
      countNumbers (l1 ++ l2) + (if isNumberEntry x then 1 else 0) := by
  unfold countNumbers
  simp only [List.countP_append, List.countP_cons]
  split_ifs <;> omega

theorem countNumbers_reverse (l : List SchemaEntry) :
    countNumbers l.reverse = countNumbers l := by
  unfold countNumbers
  simp

theorem slotAllWF_middle (l1 l2 : List SchemaEntry) (x : SchemaEntry)
    (h : slotAllWF (l1 ++ l2)) (hx : entryWF x) : slotAllWF (l1 ++ x :: l2) := by
  rw [slotAllWF_iff] at h ⊢
  intro e he
  rcases List.mem_append.mp he with he | he
  · exact h e (List.mem_append_left _ he)
  · rcases List.mem_cons.mp he with rfl | he
    · exact hx
    · exact h e (List.mem_append_right _ he)

theorem slotAllWF_reverse (l : List SchemaEntry) :
    slotAllWF l.reverse ↔ slotAllWF l := by
  rw [slotAllWF_iff, slotAllWF_iff]
  simp

theorem slotAllWF_append_iff (l1 l2 : List SchemaEntry) :
    slotAllWF (l1 ++ l2) ↔ slotAllWF l1 ∧ slotAllWF l2 := by
  rw [slotAllWF_iff, slotAllWF_iff, slotAllWF_iff]
  simp only [List.mem_append]
  constructor
  · intro h
    exact ⟨fun e he => h e (Or.inl he), fun e he => h e (Or.inr he)⟩
  · rintro ⟨h1, h2⟩ e (he | he)
    · exact h1 e he
    · exact h2 e he

theorem propsGet_propsSet_self (props : List (String × List SchemaEntry))
    (k : String) (s : List SchemaEntry) :
    propsGet (propsSet props k s) k = some s := by
  induction props with
  | nil => simp [propsGet, propsSet]
  | cons kv rest ih =>
    obtain ⟨n, w⟩ := kv
    by_cases hn : n = k <;> simp [propsGet, propsSet, hn, ih]

theorem propsGet_propsSet_ne (props : List (String × List SchemaEntry))
    (k k' : String) (s : List SchemaEntry) (h : k' ≠ k) :
    propsGet (propsSet props k s) k' = propsGet props k' := by
  have hkk : ¬(k = k') := fun hh => h hh.symm
  induction props with
  | nil => simp [propsGet, propsSet, hkk]
  | cons kv rest ih =>
    obtain ⟨n, w⟩ := kv
    by_cases hn : n = k
    · subst hn
      simp [propsGet, propsSet, hkk]
    · by_cases hn' : n = k' <;> simp [propsGet, propsSet, hn, hn', ih, h]

theorem propsSet_self (props : List (String × List SchemaEntry)) (k : String)
    (s : List SchemaEntry) (h : propsGet props k = some s) :
    propsSet props k s = props := by
  induction props with
  | nil => simp [propsGet] at h
  | cons kv rest ih =>
    obtain ⟨n, w⟩ := kv
    by_cases hn : n = k
    · subst hn
      have hw : w = s := by simpa [propsGet] using h
      simp [propsSet, hw]
    · simp only [propsGet, if_neg hn] at h
      simp [propsSet, hn, ih h]

theorem propsOKd_get (props : List (String × List SchemaEntry)) (k : String)
    (s : List SchemaEntry) (hwf : propsOKd props) (h : propsGet props k = some s) :
    countNumbers s ≤ 1 ∧ slotAllWF s := by
  induction props with
  | nil => simp [propsGet] at h
  | cons kv rest ih =>
    obtain ⟨n, w⟩ := kv
    rw [propsOKd] at hwf
    by_cases hn : n = k
    · simp only [propsGet, if_pos hn, Option.some.injEq] at h
      subst h
      exact ⟨hwf.1, hwf.2.1⟩
    · simp only [propsGet, if_neg hn] at h
      exact ih hwf.2.2 h

theorem propsOKd_set (props : List (String × List SchemaEntry)) (k : String)
    (s : List SchemaEntry) (hwf : propsOKd props) (hc : countNumbers s ≤ 1)
    (hs : slotAllWF s) : propsOKd (propsSet props k s) := by
  induction props with
  | nil =>
    show propsOKd [(k, s)]
    rw [propsOKd]
    exact ⟨hc, hs, by rw [propsOKd]; trivial⟩
  | cons kv rest ih =>
    obtain ⟨n, w⟩ := kv
    rw [propsOKd] at hwf
    by_cases hn : n = k
    · simp only [propsSet, if_pos hn]
      rw [propsOKd]
      exact ⟨hc, hs, hwf.2.2⟩
    · simp only [propsSet, if_neg hn]
      rw [propsOKd]
      exact ⟨hwf.1, hwf.2.1, ih hwf.2.2⟩

theorem updRow_untouched :
    ∀ (row : MFields) (props : List (String × List SchemaEntry)) (k : String),
      rowHasKey row k = false →
      propsGet (update_schema_from_row_aux props row).1 k = propsGet props k
  | .nil, props, k, _ => rfl
  | .cons f v rest, props, k, h => by
    simp only [rowHasKey, Bool.or_eq_false_iff, decide_eq_false_iff_not] at h
    simp only [update_schema_from_row_aux]
    by_cases hi : isSchemaInteresting v = true
    · rw [if_pos hi]
      dsimp only
      rw [updRow_untouched rest _ k (by simp [h.2]),
        propsGet_propsSet_ne _ _ _ _ (fun hh => h.1 hh.symm)]
    · rw [if_neg hi]
      exact updRow_untouched rest props k (by simp [h.2])

theorem slotAllWF_find_object (l : List SchemaEntry)
    (p : List (String × List SchemaEntry)) (hs : slotAllWF l)
    (h : l.reverse.find? isObjectEntry = some (.objectE p)) : propsOKd p := by
  have hm : SchemaEntry.objectE p ∈ l := by
    have := List.mem_of_find?_eq_some h
    simpa using this
  rw [slotAllWF_iff] at hs
  have := hs _ hm
  rwa [entryWF_objectE] at this

theorem entryWF_numberE (m : Bool) : entryWF (.numberE m) := by
  simp [entryWF]

theorem entryWF_dateTimeE : entryWF .dateTimeE := by
  simp [entryWF]

theorem addDT_any (l : List SchemaEntry) :
    (add_to_any_of_for_datetime_types l).1.any isDateTimeEntry = true := by
  unfold add_to_any_of_for_datetime_types
  split_ifs with h
  · exact h
  · simp [isDateTimeEntry]

theorem addDT_of_any (l : List SchemaEntry) (h : l.any isDateTimeEntry = true) :
    add_to_any_of_for_datetime_types l = (l, false) := by
  unfold add_to_any_of_for_datetime_types
  rw [if_pos h]

theorem addDT_count (l : List SchemaEntry) :
    countNumbers (add_to_any_of_for_datetime_types l).1 = countNumbers l := by
  unfold add_to_any_of_for_datetime_types
  split_ifs
  · rfl
  · simp [countNumbers, List.countP_cons, isNumberEntry]

theorem addDT_wf (l : List SchemaEntry) (h : slotAllWF l) :
    slotAllWF (add_to_any_of_for_datetime_types l).1 := by
  unfold add_to_any_of_for_datetime_types
  split_ifs
  · exact h
  · rw [slotAllWF_iff]
    intro e he
    rcases List.mem_cons.mp he with rfl | he
    · exact entryWF_dateTimeE
    · exact (slotAllWF_iff l).mp h e he

theorem count_split (l1 l2 : List SchemaEntry) (m : Bool)
    (hc : countNumbers (l1 ++ .numberE m :: l2) ≤ 1) :
    countNumbers l1 = 0 ∧ countNumbers l2 = 0 := by
  rw [countNumbers_middle] at hc
  simp only [isNumberEntry, if_true] at hc
  unfold countNumbers at hc ⊢
  rw [List.countP_append] at hc
  omega

theorem insert_number_facts (l : List SchemaEntry) (i : Nat) (m : Bool)
    (hzero : countNumbers l = 0) :
    (pyInsert i (.numberE m) l).any isNumberNoMult = !m ∧
    (pyInsert i (.numberE m) l).any isNumberWithMult = m ∧
    countNumbers (pyInsert i (.numberE m) l) ≤ 1 ∧
    (slotAllWF l → slotAllWF (pyInsert i (.numberE m) l)) := by
  obtain ⟨l1, l2, h1, h2⟩ := pyInsert_parts (SchemaEntry.numberE m) i l
  rw [h2]
  subst h1
  have hc1 : countNumbers l1 = 0 := by
    unfold countNumbers at hzero ⊢
    rw [List.countP_append] at hzero
    omega
  have hc2 : countNumbers l2 = 0 := by
    unfold countNumbers at hzero ⊢
    rw [List.countP_append] at hzero
    omega
  obtain ⟨ha1, hb1⟩ := count_zero_no_any l1 hc1
  obtain ⟨ha2, hb2⟩ := count_zero_no_any l2 hc2
  refine ⟨?_, ?_, ?_, ?_⟩
  · simp [List.any_append, ha1, ha2, isNumberNoMult]
  · simp [List.any_append, hb1, hb2, isNumberWithMult]
  · rw [countNumbers_middle]
    simp only [isNumberEntry, if_true]
    unfold countNumbers
    rw [List.countP_append]
    unfold countNumbers at hc1 hc2
    omega
  · intro hs
    exact slotAllWF_middle l1 l2 _ hs (entryWF_numberE _)

theorem addDec_facts (l : List SchemaEntry) (hc : countNumbers l ≤ 1) :
    (add_to_any_of_for_decimal_types l).1.any isNumberNoMult = false ∧
    (add_to_any_of_for_decimal_types l).1.any isNumberWithMult = true ∧
    countNumbers (add_to_any_of_for_decimal_types l).1 ≤ 1 ∧
    (slotAllWF l → slotAllWF (add_to_any_of_for_decimal_types l).1) := by
  unfold add_to_any_of_for_decimal_types
  cases hset : setFirstMultipleOf l with
  | some s =>
    obtain ⟨l1, l2, h1, h2, h3⟩ := setFirstMultipleOf_decomp l s hset
    subst h1 h2
    obtain ⟨hc1, hc2⟩ := count_split l1 l2 false hc
    obtain ⟨hn1, _⟩ := count_zero_no_any l1 hc1
    obtain ⟨hn2, _⟩ := count_zero_no_any l2 hc2
    dsimp only
    refine ⟨?_, ?_, ?_, ?_⟩
    · simp [List.any_append, hn1, hn2, isNumberNoMult]
    · simp [List.any_append, isNumberWithMult]
    · rw [countNumbers_middle] at hc ⊢
      simpa using hc
    · intro hs
      rw [slotAllWF_iff] at hs ⊢
      intro e he
      simp only [List.mem_append, List.mem_cons] at he hs
      rcases he with he | he | he
      · exact hs e (Or.inl he)
      · subst he; exact entryWF_numberE _
      · exact hs e (Or.inr (Or.inr he))
  | none =>
    have hnone : l.any isNumberNoMult = false :=
      (setFirstMultipleOf_none_iff l).mp hset
    dsimp only
    split_ifs with hdec hdate
    · rw [Bool.not_eq_true'] at hdec
      have hzero : countNumbers l = 0 := count_zero_of_no_any l hnone hdec
      have h := insert_number_facts l 1 true hzero
      exact ⟨by simpa using h.1, h.2.1, h.2.2.1, h.2.2.2⟩
    · rw [Bool.not_eq_true'] at hdec
      have hzero : countNumbers l = 0 := count_zero_of_no_any l hnone hdec
      have h := insert_number_facts l 0 true hzero
      exact ⟨by simpa using h.1, h.2.1, h.2.2.1, h.2.2.2⟩
    · have hdec2 : l.any isNumberWithMult = true := by
        simpa using hdec
      exact ⟨hnone, hdec2, hc, fun hs => hs⟩

theorem addDec_second (l : List SchemaEntry) (h1 : l.any isNumberNoMult = false)
    (h2 : l.any isNumberWithMult = true) :
    add_to_any_of_for_decimal_types l = (l, false) := by
  unfold add_to_any_of_for_decimal_types
  rw [(setFirstMultipleOf_none_iff l).mpr h1]
  simp [h2]

theorem addFlt_facts (l : List SchemaEntry) (hc : countNumbers l ≤ 1) :
    (add_to_any_of_for_float_types l).1.any isNumberWithMult = false ∧
    (add_to_any_of_for_float_types l).1.any isNumberNoMult = true ∧
    countNumbers (add_to_any_of_for_float_types l).1 ≤ 1 ∧
    (slotAllWF l → slotAllWF (add_to_any_of_for_float_types l).1) := by
  unfold add_to_any_of_for_float_types
  cases hset : popFirstMultipleOf l with
  | some s =>
    obtain ⟨l1, l2, h1, h2, h3⟩ := popFirstMultipleOf_decomp l s hset
    subst h1 h2
    obtain ⟨hc1, hc2⟩ := count_split l1 l2 true hc
    obtain ⟨_, hn1⟩ := count_zero_no_any l1 hc1
    obtain ⟨_, hn2⟩ := count_zero_no_any l2 hc2
    dsimp only
    refine ⟨?_, ?_, ?_, ?_⟩
    · simp [List.any_append, hn1, hn2, isNumberWithMult]
    · simp [List.any_append, isNumberNoMult]
    · rw [countNumbers_middle] at hc ⊢
      simpa using hc
    · intro hs
      rw [slotAllWF_iff] at hs ⊢
      intro e he
      simp only [List.mem_append, List.mem_cons] at he hs
      rcases he with he | he | he
      · exact hs e (Or.inl he)
      · subst he; exact entryWF_numberE _
      · exact hs e (Or.inr (Or.inr he))
  | none =>
    have hnone : l.any isNumberWithMult = false :=
      (popFirstMultipleOf_none_iff l).mp hset
    dsimp only
    split_ifs with hflt hdate
    · rw [Bool.not_eq_true'] at hflt
      have hzero : countNumbers l = 0 := count_zero_of_no_any l hflt hnone
      have h := insert_number_facts l 1 false hzero
      exact ⟨by simpa using h.2.1, by simpa using h.1, h.2.2.1, h.2.2.2⟩
    · rw [Bool.not_eq_true'] at hflt
      have hzero : countNumbers l = 0 := count_zero_of_no_any l hflt hnone
      have h := insert_number_facts l 0 false hzero
      exact ⟨by simpa using h.2.1, by simpa using h.1, h.2.2.1, h.2.2.2⟩
    · have hflt2 : l.any isNumberNoMult = true := by
        simpa using hflt
      exact ⟨hnone, hflt2, hc, fun hs => hs⟩

theorem addFlt_second (l : List SchemaEntry) (h1 : l.any isNumberWithMult = false)
    (h2 : l.any isNumberNoMult = true) :
    add_to_any_of_for_float_types l = (l, false) := by
  unfold add_to_any_of_for_float_types
  rw [(popFirstMultipleOf_none_iff l).mpr h1]
  simp [h2]

theorem slotAllWF_of_middle (l1 l2 : List SchemaEntry) (x : SchemaEntry)
    (h : slotAllWF (l1 ++ x :: l2)) : slotAllWF (l1 ++ l2) := by
  rw [slotAllWF_iff] at h ⊢
  intro e he
  rcases List.mem_append.mp he with he | he
  · exact h e (List.mem_append_left _ he)
  · exact h e (List.mem_append_right _ (List.mem_cons_of_mem _ he))

theorem replaceLast_object_count (l : List SchemaEntry)
    (np : List (String × List SchemaEntry)) (e : SchemaEntry)
    (h : l.reverse.find? isObjectEntry = some e) :
    countNumbers (replaceLastWith isObjectEntry (.objectE np) l) =
      countNumbers l := by
  obtain ⟨r1, r2, h1, h2⟩ :=
    replaceFirstWith_parts isObjectEntry (.objectE np) l.reverse e h
  obtain ⟨q, rfl⟩ := isObjectEntry_eq e (List.find?_some h)
  have hrev : (replaceLastWith isObjectEntry (.objectE np) l).reverse =
      r1 ++ .objectE np :: r2 := by
    rw [replaceLastWith_reverse, h2]
  rw [← countNumbers_reverse (replaceLastWith isObjectEntry (.objectE np) l),
    hrev, ← countNumbers_reverse l, h1, countNumbers_middle, countNumbers_middle]
  simp [isNumberEntry]

theorem replaceLast_object_wf (l : List SchemaEntry)
    (np : List (String × List SchemaEntry)) (e : SchemaEntry)
    (h : l.reverse.find? isObjectEntry = some e) (hs : slotAllWF l)
    (hnp : propsOKd np) :
    slotAllWF (replaceLastWith isObjectEntry (.objectE np) l) := by
  obtain ⟨r1, r2, h1, h2⟩ :=
    replaceFirstWith_parts isObjectEntry (.objectE np) l.reverse e h
  have hrev : (replaceLastWith isObjectEntry (.objectE np) l).reverse =
      r1 ++ .objectE np :: r2 := by
    rw [replaceLastWith_reverse, h2]
  rw [← slotAllWF_reverse, hrev]
  apply slotAllWF_middle
  · apply slotAllWF_of_middle r1 r2 e
    rw [← h1, slotAllWF_reverse]
    exact hs
  · exact (entryWF_objectE np).mpr hnp

theorem addAny_objV_eq (l : List SchemaEntry) (fields : MFields) :
    add_to_any_of l (.objV fields) =
      dict_type_finish l (findLastObjectProps l)
        (update_schema_from_row_aux ((findLastObjectProps l).getD []) fields).1
        (update_schema_from_row_aux ((findLastObjectProps l).getD []) fields).2 :=
  rfl

theorem updRow_cons_int_eq (props : List (String × List SchemaEntry)) (f : String)
    (v : MongoValue) (rest : MFields) (hi : isSchemaInteresting v = true) :
    update_schema_from_row_aux props (.cons f v rest) =
      ((update_schema_from_row_aux
          (propsSet props f
            (add_to_any_of ((propsGet props f).getD [SchemaEntry.catchAll]) v).1)
          rest).1,
       (add_to_any_of ((propsGet props f).getD [SchemaEntry.catchAll]) v).2 ||
         (update_schema_from_row_aux
            (propsSet props f
              (add_to_any_of ((propsGet props f).getD [SchemaEntry.catchAll]) v).1)
            rest).2) := by
  simp only [update_schema_from_row_aux, if_pos hi]

theorem updRow_cons_unint_eq (props : List (String × List SchemaEntry)) (f : String)
    (v : MongoValue) (rest : MFields) (hi : ¬isSchemaInteresting v = true) :
    update_schema_from_row_aux props (.cons f v rest) =
      update_schema_from_row_aux props rest := by
  simp only [update_schema_from_row_aux, if_neg hi]

mutual

theorem addAny_sat_wf :
    ∀ (v : MongoValue) (l : List SchemaEntry), valueNice v = true →
      countNumbers l ≤ 1 → slotAllWF l →
      (add_to_any_of (add_to_any_of l v).1 v = ((add_to_any_of l v).1, false)) ∧
      countNumbers (add_to_any_of l v).1 ≤ 1 ∧
      slotAllWF (add_to_any_of l v).1
  | .datetimeV _, l, _, hc, hs => by
    refine ⟨?_, ?_, ?_⟩
    · show add_to_any_of_for_datetime_types
          (add_to_any_of_for_datetime_types l).1 = _
      exact addDT_of_any _ (addDT_any l)
    · show countNumbers (add_to_any_of_for_datetime_types l).1 ≤ 1
      rw [addDT_count]
      exact hc
    · exact addDT_wf l hs
  | .timestampV _ _, l, _, hc, hs => by
    refine ⟨?_, ?_, ?_⟩
    · show add_to_any_of_for_datetime_types
          (add_to_any_of_for_datetime_types l).1 = _
      exact addDT_of_any _ (addDT_any l)
    · show countNumbers (add_to_any_of_for_datetime_types l).1 ≤ 1
      rw [addDT_count]
      exact hc
    · exact addDT_wf l hs
  | .decimal128V _, l, _, hc, hs => by
    obtain ⟨h1, h2, h3, h4⟩ := addDec_facts l hc
    exact ⟨addDec_second _ h1 h2, h3, h4 hs⟩
  | .floatV _, l, _, hc, hs => by
    obtain ⟨h1, h2, h3, h4⟩ := addFlt_facts l hc
    exact ⟨addFlt_second _ h1 h2, h3, h4 hs⟩
  | .intV _, l, _, hc, hs => ⟨rfl, hc, hs⟩
  | .strV _, l, _, hc, hs => ⟨rfl, hc, hs⟩
  | .boolV _, l, _, hc, hs => ⟨rfl, hc, hs⟩
  | .nullV, l, _, hc, hs => ⟨rfl, hc, hs⟩
  | .pyDecimalV _, l, _, hc, hs => ⟨rfl, hc, hs⟩
  | .int64V _, l, _, hc, hs => ⟨rfl, hc, hs⟩
  | .uuidV _, l, _, hc, hs => ⟨rfl, hc, hs⟩
  | .objectIdV _, l, _, hc, hs => ⟨rfl, hc, hs⟩
  | .bytesV _, l, _, hc, hs => ⟨rfl, hc, hs⟩
  | .regexV _ _, l, _, hc, hs => ⟨rfl, hc, hs⟩
  | .codeV _ _, l, _, hc, hs => ⟨rfl, hc, hs⟩
  | .dbrefV _ _ _, l, _, hc, hs => ⟨rfl, hc, hs⟩
  | .minKeyV, l, _, hc, hs => ⟨rfl, hc, hs⟩
  | .maxKeyV, l, _, hc, hs => ⟨rfl, hc, hs⟩
  | .arrV _, l, hn, hc, hs => by simp [valueNice] at hn
  | .objV fields, l, hn, hc, hs => by
    have hnice : rowNice fields = true := by simpa [valueNice] using hn
    cases hfound : findLastObjectProps l with
    | some p =>
      have hfind := findLastObjectProps_some_find l p hfound
      have hpOK : propsOKd p := slotAllWF_find_object l p hs hfind
      obtain ⟨hsatp, hwfp⟩ := updRow_sat_wf fields p hnice hpOK
      have heq1 : add_to_any_of l (.objV fields) =
          (replaceLastWith isObjectEntry
            (.objectE (update_schema_from_row_aux p fields).1) l,
           (update_schema_from_row_aux p fields).2) := by
        rw [addAny_objV_eq, hfound]
        rfl
      rw [heq1]
      have hfind' : (replaceLastWith isObjectEntry
            (.objectE (update_schema_from_row_aux p fields).1) l).reverse.find?
            isObjectEntry =
          some (.objectE (update_schema_from_row_aux p fields).1) :=
        find?_replaceLastWith_object l _ _ hfind
      refine ⟨?_, ?_, ?_⟩
      · rw [addAny_objV_eq, findLastObjectProps_of_find _ _ hfind']
        show dict_type_finish _ (some (update_schema_from_row_aux p fields).1)
            (update_schema_from_row_aux (update_schema_from_row_aux p fields).1
              fields).1
            (update_schema_from_row_aux (update_schema_from_row_aux p fields).1
              fields).2 = _
        rw [hsatp]
        show (replaceLastWith isObjectEntry
            (.objectE (update_schema_from_row_aux p fields).1) _, false) = _
        rw [replaceLastWith_self _ _ _ hfind']
      · show countNumbers _ ≤ 1
        rw [replaceLast_object_count l _ _ hfind]
        exact hc
      · exact replaceLast_object_wf l _ _ hfind hs hwfp
    | none =>
      have hfindn := findLastObjectProps_none_find l hfound
      have hpOK : propsOKd ([] : List (String × List SchemaEntry)) := by
        rw [propsOKd]
        trivial
      obtain ⟨hsatp, hwfp⟩ := updRow_sat_wf fields [] hnice hpOK
      cases hflag : (update_schema_from_row_aux [] fields).2 with
      | false =>
        have heq1 : add_to_any_of l (.objV fields) = (l, false) := by
          rw [addAny_objV_eq, hfound]
          show dict_type_finish l none (update_schema_from_row_aux [] fields).1
              (update_schema_from_row_aux [] fields).2 = (l, false)
          rw [hflag]
          rfl
        rw [heq1]
        exact ⟨heq1, hc, hs⟩
      | true =>
        have heq1 : add_to_any_of l (.objV fields) =
            (pyInsertBeforeLast
              (.objectE (update_schema_from_row_aux [] fields).1) l, true) := by
          rw [addAny_objV_eq, hfound]
          show dict_type_finish l none (update_schema_from_row_aux [] fields).1
              (update_schema_from_row_aux [] fields).2 = _
          rw [hflag]
          rfl
        rw [heq1]
        have hfind' : (pyInsertBeforeLast
              (.objectE (update_schema_from_row_aux [] fields).1) l).reverse.find?
              isObjectEntry =
            some (.objectE (update_schema_from_row_aux [] fields).1) :=
          find?_pyInsertBeforeLast_object l _ hfindn
        refine ⟨?_, ?_, ?_⟩
        · rw [addAny_objV_eq, findLastObjectProps_of_find _ _ hfind']
          show dict_type_finish _ (some (update_schema_from_row_aux [] fields).1)
              (update_schema_from_row_aux (update_schema_from_row_aux [] fields).1
                fields).1
              (update_schema_from_row_aux (update_schema_from_row_aux [] fields).1
                fields).2 = _
          rw [hsatp]
          show (replaceLastWith isObjectEntry
              (.objectE (update_schema_from_row_aux [] fields).1) _, false) = _
          rw [replaceLastWith_self _ _ _ hfind']
        · obtain ⟨l1, l2, hp1, hp2⟩ :=
            pyInsertBeforeLast_parts
              (.objectE (update_schema_from_row_aux [] fields).1) l
          show countNumbers _ ≤ 1
          rw [hp2, countNumbers_middle]
          simp only [isNumberEntry, if_false]
          rw [← hp1]
          simpa using hc
        · obtain ⟨l1, l2, hp1, hp2⟩ :=
            pyInsertBeforeLast_parts
              (.objectE (update_schema_from_row_aux [] fields).1) l
          show slotAllWF _
          rw [hp2]
          apply slotAllWF_middle
          · rw [← hp1]
            exact hs
          · exact (entryWF_objectE _).mpr hwfp

theorem updRow_sat_wf :
    ∀ (row : MFields) (props : List (String × List SchemaEntry)),
      rowNice row = true → propsOKd props →
      (update_schema_from_row_aux (update_schema_from_row_aux props row).1 row =
        ((update_schema_from_row_aux props row).1, false)) ∧
      propsOKd (update_schema_from_row_aux props row).1
  | .nil, props, _, hwf => ⟨rfl, hwf⟩
  | .cons f v rest, props, hn, hwf => by
    have hparts : rowHasKey rest f = false ∧ valueNice v = true ∧
        rowNice rest = true := by
      have h := hn
      simp only [rowNice, Bool.and_eq_true, Bool.not_eq_true'] at h
      exact ⟨h.1.1, h.1.2, h.2⟩
    by_cases hi : isSchemaInteresting v = true
    · have hslotOK : countNumbers ((propsGet props f).getD [SchemaEntry.catchAll]) ≤ 1 ∧
          slotAllWF ((propsGet props f).getD [SchemaEntry.catchAll]) := by
        cases hg : propsGet props f with
        | some s => simpa using propsOKd_get props f s hwf hg
        | none =>
          refine ⟨by decide, ?_⟩
          rw [slotAllWF_iff]
          intro e he
          simp only [Option.getD_none, List.mem_singleton] at he
          subst he
          simp [entryWF]
      obtain ⟨hsatv, hcv, hwv⟩ := addAny_sat_wf v _ hparts.2.1 hslotOK.1 hslotOK.2
      have hwf1 : propsOKd (propsSet props f
          (add_to_any_of ((propsGet props f).getD [SchemaEntry.catchAll]) v).1) :=
        propsOKd_set props f _ hwf hcv hwv
      obtain ⟨hsatr, hwfr⟩ := updRow_sat_wf rest _ hparts.2.2 hwf1
      have hfst : (update_schema_from_row_aux props (.cons f v rest)).1 =
          (update_schema_from_row_aux
            (propsSet props f
              (add_to_any_of ((propsGet props f).getD [SchemaEntry.catchAll]) v).1)
            rest).1 := by
        rw [updRow_cons_int_eq props f v rest hi]
      rw [hfst]
      refine ⟨?_, hwfr⟩
      rw [updRow_cons_int_eq _ f v rest hi]
      have hget : propsGet (update_schema_from_row_aux
            (propsSet props f
              (add_to_any_of ((propsGet props f).getD [SchemaEntry.catchAll]) v).1)
            rest).1 f =
          some (add_to_any_of ((propsGet props f).getD [SchemaEntry.catchAll]) v).1 := by
        rw [updRow_untouched rest _ f hparts.1, propsGet_propsSet_self]
      rw [hget]
      simp only [Option.getD_some]
      rw [hsatv, propsSet_self _ f _ hget]
      rw [hsatr]
      simp
    · obtain ⟨hsatr, hwfr⟩ := updRow_sat_wf rest props hparts.2.2 hwf
      have heq : update_schema_from_row_aux props (.cons f v rest) =
          update_schema_from_row_aux props rest :=
        updRow_cons_unint_eq props f v rest hi
      rw [heq]
      refine ⟨?_, hwfr⟩
      rw [updRow_cons_unint_eq _ f v rest hi]
      exact hsatr

end

/-- **C5** (amended). Merging a row into a schema tree is idempotent for
array-free rows with pairwise-distinct field names (at every nesting
level) against well-formed schema trees -- trees in which each `anyOf`
list holds at most one numeric entry and entry flags match their shape,
as produced by the merger itself.  The second call of
`update_schema_from_row` on the same row returns the tree unchanged with
`changed = false`.  (The unamended universal claim is refuted by
`claim_c5_counterexample`: a row whose array holds a `Decimal128` and a
`float` flips the `anyOf` number marker on every pass, so the second
merge still reports a change.) -/
theorem claim_c5_array_free_idempotence (props : List (String × List SchemaEntry))
    (row : MFields) (hrow : rowNice row = true) (hwf : propsOKd props) :
    update_schema_from_row (update_schema_from_row props row).1 row =
      ((update_schema_from_row props row).1, false) :=
  (updRow_sat_wf row props hrow hwf).1

theorem claim_c5_array_free_idempotence_witness :
    rowNice (MFields.cons "a" (.decimal128V "1.1")
      (MFields.cons "b" (.objV (MFields.cons "t" (.strV "x") .nil)) .nil)) = true ∧
    update_schema_from_row
        (update_schema_from_row []
          (MFields.cons "a" (.decimal128V "1.1")
            (MFields.cons "b" (.objV (MFields.cons "t" (.strV "x") .nil)) .nil))).1
        (MFields.cons "a" (.decimal128V "1.1")
          (MFields.cons "b" (.objV (MFields.cons "t" (.strV "x") .nil)) .nil)) =
      ((update_schema_from_row []
          (MFields.cons "a" (.decimal128V "1.1")
            (MFields.cons "b" (.objV (MFields.cons "t" (.strV "x") .nil)) .nil))).1,
        false) :=
  ⟨by decide,
   claim_c5_array_free_idempotence [] _ (by decide) (by rw [propsOKd]; trivial)⟩
